import Mathlib

/-!
# DiffCoEx: correlation-based significance testing

A shallow embedding of the significance-testing engine of the repository
(`src/significanceTesting/moduleCorrelationTesting.go`,
`src/significanceTesting/nullDistributionTest.go`,
`src/plotSignificanceTesting/plotDistributions.go`).

Modelling conventions.

* A `float64` is a value of `Fl K = Option K`: `none` is NaN and `some v` is an
  exact number of an ordered field `K` (`ℚ` for evaluation). Rounding and
  infinities are not modelled.
* Go `int` values that are never negative on the modelled paths are `Nat`;
  `minSamples`, which starts at `-1`, is an `Int`. A Go `int` has 64 bits and
  slice lengths stay far below the overflow of `n * (n - 1)`, so the integers
  are unbounded.
* `math.Sqrt` and `math.Erf` are parameters `sqrt erf : K → K`.
* `runtime.GOMAXPROCS(0)` is the parameter `numWorkers`.
* A Go runtime failure (index or slice bound out of range) is the result `none`
  of an `Option`-valued definition.
* The result channel of `getModuleCorrelations` delivers the values of the
  workers in an unspecified interleaving. The model lists them worker by
  worker; statements about the result are made on the multiset.
-/

namespace DiffCoEx

/-! ## Floating-point values -/

/-- A `float64`: `none` is NaN, `some v` an exact number. -/
abbrev Fl (K : Type) := Option K

section FloatOps

variable {K : Type} [LinearOrderedField K]

/-- Addition of `float64`; NaN propagates. -/
def fadd (a b : Fl K) : Fl K := a.bind fun x => b.bind fun y => some (x + y)

/-- Subtraction of `float64`; NaN propagates. -/
def fsub (a b : Fl K) : Fl K := a.bind fun x => b.bind fun y => some (x - y)

/-- Multiplication of `float64`; NaN propagates. -/
def fmul (a b : Fl K) : Fl K := a.bind fun x => b.bind fun y => some (x * y)

/-- Division of `float64`; NaN propagates and a zero divisor gives NaN (the
infinities of `x / 0` are not modelled). -/
def fdiv (a b : Fl K) : Fl K :=
  a.bind fun x => b.bind fun y => if y = 0 then none else some (x / y)

/-- The function `math.Abs`. -/
def fabs (a : Fl K) : Fl K := a.map fun x => abs x

/-- The function `math.Sqrt`: NaN on NaN and on negative numbers. -/
def fsqrt (sqrt : K → K) (a : Fl K) : Fl K :=
  a.bind fun x => if x < 0 then none else some (sqrt x)

/-- The function `math.Erf`. -/
def ferf (erf : K → K) (a : Fl K) : Fl K := a.map erf

/-- The function `math.IsNaN`. -/
def isNaN (a : Fl K) : Bool := a.isNone

/-- The conversion `float64(n)` of a length. -/
def ofLen (n : Nat) : Fl K := some (n : K)

/-- Left-to-right sum of a slice, starting at zero. -/
def fsum (x : List (Fl K)) : Fl K := x.foldl fadd (some 0)

end FloatOps

/-! ## The linear index of a pair -/

/-- The function `getGeneIndices` of `moduleCorrelationTesting.go`.
`floor((-1 + sqrt(1 + 8*idx)) / 2)` is computed with the integer square root:
for a real `y`, `floor((y - 1) / 2) = (floor y - 1) / 2`. The index is never
negative at the call site.  `i * (i + 1) / 2 ≤ idx`, so the subtraction is
exact on `Nat`. -/
def getGeneIndices (idx : Nat) : Nat × Nat :=
  let i := (Nat.sqrt (1 + 8 * idx) - 1) / 2
  let j := idx - (i * (i + 1) / 2)
  (i, j + i + 1)

/-! ## Work partition -/

/-- The value `pairsPerWorker` of `getModuleCorrelations`. -/
def pairsPerWorker (numCorrelations numWorkers : Nat) : Nat :=
  if numCorrelations / numWorkers < 1 then 1 else numCorrelations / numWorkers

/-- The pair `(startIdx, endIdx)` handed to worker `w`. -/
def workerRange (numCorrelations numWorkers w : Nat) : Nat × Nat :=
  let startIdx := w * pairsPerWorker numCorrelations numWorkers
  let endIdx :=
    if w = numWorkers - 1 then numCorrelations
    else (w + 1) * pairsPerWorker numCorrelations numWorkers
  (startIdx, endIdx)

/-- The indices visited by `for idx := start; idx < end; idx++`. -/
def loopIndices (r : Nat × Nat) : List Nat := List.range' r.1 (r.2 - r.1)

/-- All indices visited by the workers `0, ..., numWorkers - 1`, worker by
worker. -/
def workIndices (numCorrelations numWorkers : Nat) : List Nat :=
  (List.range numWorkers).flatMap fun w =>
    loopIndices (workerRange numCorrelations numWorkers w)

/-! ## Statistics of the gonum library -/

section Stat

variable {K : Type} [LinearOrderedField K]

/-- Modelled from the spec: the function `stat.Mean(x, nil)` of the gonum
library, which is not part of the repository: the sum of the values divided
by their number. -/
def mean (x : List (Fl K)) : Fl K := fdiv (fsum x) (ofLen x.length)

/-- Sum of the squared deviations from a centre `m`. -/
def sumSq (m : Fl K) (x : List (Fl K)) : Fl K :=
  fsum (x.map fun v => fmul (fsub v m) (fsub v m))

/-- Modelled from the spec: the function `stat.Variance(x, nil)` of the gonum
library, which is not part of the repository. The spec leaves open whether the
variance is the population or the sample variance; gonum computes the unbiased
sample variance, the squared deviations from the mean summed and divided by
`n - 1`. -/
def variance (x : List (Fl K)) : Fl K :=
  fdiv (sumSq (mean x) x) (fsub (ofLen x.length) (some 1))

/-- Sum of the products of the deviations of `x` and `y` from their means. -/
def sumProd (x y : List (Fl K)) : Fl K :=
  fsum (List.zipWith (fun a b => fmul (fsub a (mean x)) (fsub b (mean y))) x y)

/-- Modelled from the spec: the function `stat.Correlation(x, y, nil)` of the
gonum library, which is not part of the repository: the Pearson correlation
coefficient `sxy / sqrt (sxx * syy)`, NaN when a vector has no variance. -/
def correlation (sqrt : K → K) (x y : List (Fl K)) : Fl K :=
  fdiv (sumProd x y) (fsqrt sqrt (fmul (sumSq (mean x) x) (sumSq (mean y) y)))

end Stat

/-! ## The pairwise correlation engine -/

section Engine

variable {K : Type}

/-- The type `map[string][]float64`, as an association list; a key is looked
up with `List.lookup`. -/
abbrev ExpressionMap (K : Type) := List (String × List (Fl K))

/-- The loop of `getModuleCorrelations` that finds the minimum sample size
across all genes in the dataset; `-1` when the map is empty. -/
def minSamples (expressionData : ExpressionMap K) : Int :=
  expressionData.foldl
    (fun m e => if m = -1 ∨ (e.2.length : Int) < m then (e.2.length : Int) else m) (-1)

/-- The slice expression `s[:k]`; `none` is the runtime failure of a bound
that is negative or beyond the length. -/
def sliceTo {α : Type} (s : List α) (k : Int) : Option (List α) :=
  if 0 ≤ k ∧ k ≤ (s.length : Int) then some (s.take k.toNat) else none

/-- The body of the worker loop of `getModuleCorrelations` at index `idx`: the
values it sends on the result channel (`[]` when the index is skipped, the
gene is missing or the correlation is NaN), or `none` on a runtime failure. -/
def processIndex (corr : List (Fl K) → List (Fl K) → Fl K) (genes : List String)
    (expressionData : ExpressionMap K) (minS : Int) (idx : Nat) : Option (List (Fl K)) :=
  let ij := getGeneIndices idx
  if ij.1 ≥ genes.length ∨ ij.2 ≥ genes.length then some []
  else
    match genes[ij.1]?, genes[ij.2]? with
    | some gene1, some gene2 =>
      match expressionData.lookup gene1, expressionData.lookup gene2 with
      | some expr1, some expr2 =>
        (sliceTo expr1 minS).bind fun e1 =>
          (sliceTo expr2 minS).bind fun e2 =>
            if (corr e1 e2).isNone then some [] else some [corr e1 e2]
      | _, _ => some []
    | _, _ => none

/-- Runs a loop body over a list of indices and appends what it sends; `none`
as soon as one step fails. -/
def collect {β : Type} (f : Nat → Option (List β)) : List Nat → Option (List β)
  | [] => some []
  | i :: rest => (f i).bind fun v => (collect f rest).map fun r => v ++ r

/-- The function `getModuleCorrelations` of `moduleCorrelationTesting.go` (and
its copy in `plotDistributions.go`), with `stat.Correlation` as `corr` and
`runtime.GOMAXPROCS(0)` as `numWorkers`. -/
def getModuleCorrelations (corr : List (Fl K) → List (Fl K) → Fl K) (numWorkers : Nat)
    (genes : List String) (expressionData : ExpressionMap K) : Option (List (Fl K)) :=
  let minS := minSamples expressionData
  let numGenes := genes.length
  let numCorrelations := (numGenes * (numGenes - 1)) / 2
  collect (processIndex corr genes expressionData minS) (workIndices numCorrelations numWorkers)

/-- One sequential pass of the worker loop body over the indices
`0, ..., n * (n - 1) / 2 - 1`. -/
def sequentialPass (corr : List (Fl K) → List (Fl K) → Fl K)
    (genes : List String) (expressionData : ExpressionMap K) : Option (List (Fl K)) :=
  collect (processIndex corr genes expressionData (minSamples expressionData))
    (List.range ((genes.length * (genes.length - 1)) / 2))

/-- The correlations of all position pairs `i < j` of a gene list, in the order
of the nested loops `for i in [0,n) for j in (i,n)`, without the NaN values:
the result the spec describes. -/
def allPairsCorrelations (corr : List (Fl K) → List (Fl K) → Fl K)
    (genes : List String) (expressionData : ExpressionMap K) : List (Fl K) :=
  let m := (minSamples expressionData).toNat
  (List.range genes.length).flatMap fun i =>
    (List.range' (i + 1) (genes.length - (i + 1))).flatMap fun j =>
      match genes[i]?, genes[j]? with
      | some g1, some g2 =>
        match expressionData.lookup g1, expressionData.lookup g2 with
        | some e1, some e2 =>
          if (corr (e1.take m) (e2.take m)).isNone then [] else [corr (e1.take m) (e2.take m)]
        | _, _ => []
      | _, _ => []

end Engine

/-! ## The two-sample significance statistic -/

section Significance

variable {K : Type} [LinearOrderedField K]

/-- The function `normalCDF` of `moduleCorrelationTesting.go`; the copy in
`plotDistributions.go` divides by the constant `math.Sqrt2`, the same value. -/
def normalCDF (sqrt erf : K → K) (x : Fl K) : Fl K :=
  fmul (some (1 / 2)) (fadd (some 1) (ferf erf (fdiv x (fsqrt sqrt (some 2)))))

/-- The function `calculateTTest` of `moduleCorrelationTesting.go`. -/
def calculateTTest (sqrt erf : K → K) (x y : List (Fl K)) : Fl K × Fl K :=
  if x.length < 2 ∨ y.length < 2 then (some 0, some 1)
  else
    let meanX := mean x
    let meanY := mean y
    let varX := variance x
    let varY := variance y
    if varX = some 0 ∨ varY = some 0 then (some 0, some 1)
    else
      let nx : Fl K := ofLen x.length
      let ny : Fl K := ofLen y.length
      let se := fsqrt sqrt (fadd (fdiv varX nx) (fdiv varY ny))
      if se = some 0 then (some 0, some 1)
      else
        let tstat := fdiv (fsub meanX meanY) se
        let z := fabs tstat
        let pval := fmul (some 2) (fsub (some 1) (normalCDF sqrt erf z))
        if isNaN tstat ∨ isNaN pval then (some 0, some 1)
        else (tstat, pval)

/-- The function `compareWithNull` of `nullDistributionTest.go`. -/
def compareWithNull (sqrt erf : K → K) (actualCorrs nullCorrs : List (Fl K)) : Fl K × Fl K :=
  if actualCorrs.length < 2 ∨ nullCorrs.length < 2 then (some 0, some 1)
  else
    let meanActual := mean actualCorrs
    let meanNull := mean nullCorrs
    let varActual := variance actualCorrs
    let varNull := variance nullCorrs
    if varActual = some 0 ∨ varNull = some 0 then (some 0, some 1)
    else
      let nActual : Fl K := ofLen actualCorrs.length
      let nNull : Fl K := ofLen nullCorrs.length
      let se := fsqrt sqrt (fadd (fdiv varActual nActual) (fdiv varNull nNull))
      if se = some 0 then (some 0, some 1)
      else
        let tstat := fdiv (fsub meanActual meanNull) se
        let z := fabs tstat
        let pval := fmul (some 2) (fsub (some 1) (normalCDF sqrt erf z))
        (tstat, pval)

/-- The function `calculateTStatistic` of `plotDistributions.go`. -/
def calculateTStatistic (sqrt erf : K → K) (actual null : List (Fl K)) : Fl K × Fl K :=
  if actual.length < 2 ∨ null.length < 2 then (some 0, some 1)
  else
    let actualAbs := actual.map fabs
    let nullAbs := null.map fabs
    let actualMean := mean actualAbs
    let nullMean := mean nullAbs
    let actualVar := variance actualAbs
    let nullVar := variance nullAbs
    if actualVar = some 0 ∨ nullVar = some 0 then (some 0, some 1)
    else
      let actualN : Fl K := ofLen actual.length
      let nullN : Fl K := ofLen null.length
      let se := fsqrt sqrt (fadd (fdiv actualVar actualN) (fdiv nullVar nullN))
      if se = some 0 then (some 0, some 1)
      else
        let t := fdiv (fsub actualMean nullMean) se
        let z := fabs t
        let p := fmul (some 2) (fsub (some 1) (normalCDF sqrt erf z))
        if isNaN t ∨ isNaN p then (some 0, some 1)
        else (t, p)

end Significance

/-! ## Reference formulas and sample data -/

section Reference

variable {K : Type} [LinearOrderedField K]

/-- The arithmetic mean of a sample of numbers. -/
def avg (xs : List K) : K := xs.sum / (xs.length : K)

/-- The unbiased sample variance of a sample of numbers. -/
def sampleVar (xs : List K) : K :=
  (xs.map fun v => (v - avg xs) * (v - avg xs)).sum / ((xs.length : K) - 1)

/-- The statistic `(meanA - meanB) / sqrt (varA / |A| + varB / |B|)`. -/
def welchT (sqrt : K → K) (xs ys : List K) : K :=
  (avg xs - avg ys) / sqrt (sampleVar xs / (xs.length : K) + sampleVar ys / (ys.length : K))

/-- The standard normal distribution function `0.5 * (1 + erf (x / sqrt 2))`. -/
def phi (sqrt erf : K → K) (x : K) : K := 1 / 2 * (1 + erf (x / sqrt 2))

end Reference

/-- A rational stand-in for `math.Erf` used to evaluate the definitions: odd,
increasing, with values strictly between `-1` and `1`. -/
def erfQ (x : ℚ) : ℚ := x / (1 + abs x)

/-- A rational stand-in for `math.Sqrt` used to evaluate the definitions: the
rational square root of Mathlib, exact on squares of rationals. -/
def sqrtQ (x : ℚ) : ℚ := Rat.sqrt x

/-- Three genes whose sample vectors are permutations of `1, 2, 3`; the three
pairwise Pearson correlations are `1/2`, `1/2` and `-1/2`. -/
def exprPerm3 : ExpressionMap ℚ :=
  [("g1", [some 1, some 2, some 3]),
   ("g2", [some 1, some 3, some 2]),
   ("g3", [some 2, some 1, some 3])]

/-- The expression map of the end-to-end example of the spec:
`g1:[1,2,3,4], g2:[2,4,6,8], g3:[1,1,1,1]`. -/
def exprSpec : ExpressionMap ℚ :=
  [("g1", [some 1, some 2, some 3, some 4]),
   ("g2", [some 2, some 4, some 6, some 8]),
   ("g3", [some 1, some 1, some 1, some 1])]

/-! ## The null distribution generator and the orchestration -/

/-- The type `map[string]string` returned by `loadModules`, gene to module, as
an association list. -/
abbrev ModuleMap := List (String × String)

/-- The struct `ModuleStats` of `moduleCorrelationTesting.go`. -/
structure ModuleStats (K : Type) where
  Name : String
  TStatistic : Fl K
  PValue : Fl K
  Size : Nat

/-- The struct `NullDistributionStats` of `nullDistributionTest.go`. -/
structure NullDistributionStats (K : Type) where
  Name : String
  Size : Nat
  C1NullTStatistic : Fl K
  C1NullPValue : Fl K
  C2NullTStatistic : Fl K
  C2NullPValue : Fl K

/-- Runs a list of computations in order and lists their results; `none` as
soon as one of them fails. -/
def sequenceAll {β : Type} : List (Option β) → Option (List β)
  | [] => some []
  | a :: rest => a.bind fun v => (sequenceAll rest).map fun r => v :: r

/-- The loop `for gene, module := range moduleMap` of `analyzeModule` and
`analyzeModuleNullDistribution` that collects the genes of a module, in the
iteration order of the map. -/
def moduleGenesOf (moduleName : String) (moduleMap : ModuleMap) : List String :=
  (moduleMap.filter fun e => e.2 == moduleName).map Prod.fst

/-- The loop `for gene := range conditionData` of `createNullDistributions`
that lists all gene names of a condition. -/
def geneNames {K : Type} (conditionData : ExpressionMap K) : List String :=
  conditionData.map Prod.fst

/-- The function `sampleGenes` of `nullDistributionTest.go` (and its copy in
`plotDistributions.go`); `indices` is the value of `r.Perm(len(genes))`.
`none` is the runtime failure of `make` with a negative size or of an index
out of range. -/
def sampleGenes (genes : List String) (size : Int) (indices : List Nat) :
    Option (List String) :=
  if size < 0 then none
  else sequenceAll ((List.range size.toNat).map fun i => (indices[i]?).bind fun k => genes[k]?)

section Orchestration

variable {K : Type} [LinearOrderedField K]

/-- The function `analyzeModule` of `moduleCorrelationTesting.go`. -/
def analyzeModule (corr : List (Fl K) → List (Fl K) → Fl K) (sqrt erf : K → K)
    (numWorkers : Nat) (moduleName : String) (moduleMap : ModuleMap)
    (condition1Data condition2Data : ExpressionMap K) : Option (ModuleStats K) :=
  let moduleGenes := moduleGenesOf moduleName moduleMap
  (getModuleCorrelations corr numWorkers moduleGenes condition1Data).bind fun condition1Corrs =>
    (getModuleCorrelations corr numWorkers moduleGenes condition2Data).bind fun condition2Corrs =>
      let r := calculateTTest sqrt erf condition1Corrs condition2Corrs
      some (ModuleStats.mk moduleName r.1 r.2 moduleGenes.length)

/-- The trials of the worker pool of one condition in `createNullDistributions`
and `generateNullCorrelations`: each of the `numWorkers` workers runs
`numPermutations / numWorkers` trials; trial `i` of worker `w` samples with the
permutation `draws w i` and sends the correlations of the sampled genes. The
result lists what the trials send, worker by worker. -/
def nullTrials (corr : List (Fl K) → List (Fl K) → Fl K) (numWorkers : Nat)
    (genes : List String) (moduleSize : Int) (conditionData : ExpressionMap K)
    (numPermutations : Nat) (draws : Nat → Nat → List Nat) : Option (List (List (Fl K))) :=
  sequenceAll ((List.range numWorkers).flatMap fun w =>
    (List.range (numPermutations / numWorkers)).map fun i =>
      (sampleGenes genes moduleSize (draws w i)).bind fun nullGenes =>
        getModuleCorrelations corr numWorkers nullGenes conditionData)

/-- The function `generateNullCorrelations` of `plotDistributions.go`. -/
def generateNullCorrelations (corr : List (Fl K) → List (Fl K) → Fl K) (numWorkers : Nat)
    (moduleGenes c1Genes c2Genes : List String)
    (condition1Data condition2Data : ExpressionMap K) (numPermutations : Nat)
    (draws1 draws2 : Nat → Nat → List Nat) : Option (List (Fl K) × List (Fl K)) :=
  let moduleSize : Int := moduleGenes.length
  (nullTrials corr numWorkers c1Genes moduleSize condition1Data numPermutations draws1).bind
    fun c1Results =>
      (nullTrials corr numWorkers c2Genes moduleSize condition2Data numPermutations draws2).bind
        fun c2Results => some (c1Results.flatten, c2Results.flatten)

/-- The function `createNullDistributions` of `nullDistributionTest.go`, with
its constant `numPermutations = 1000`. -/
def createNullDistributions (corr : List (Fl K) → List (Fl K) → Fl K) (sqrt erf : K → K)
    (numWorkers : Nat) (moduleGenes : List String)
    (condition1Data condition2Data : ExpressionMap K)
    (draws1 draws2 : Nat → Nat → List Nat) : Option ((Fl K × Fl K) × (Fl K × Fl K)) :=
  let c1Genes := geneNames condition1Data
  let c2Genes := geneNames condition2Data
  let moduleSize : Int := moduleGenes.length
  (getModuleCorrelations corr numWorkers moduleGenes condition1Data).bind fun actualC1Corrs =>
    (getModuleCorrelations corr numWorkers moduleGenes condition2Data).bind fun actualC2Corrs =>
      (nullTrials corr numWorkers c1Genes moduleSize condition1Data 1000 draws1).bind
        fun c1Results =>
          (nullTrials corr numWorkers c2Genes moduleSize condition2Data 1000 draws2).bind
            fun c2Results =>
              some (compareWithNull sqrt erf actualC1Corrs c1Results.flatten,
                compareWithNull sqrt erf actualC2Corrs c2Results.flatten)

/-- The function `analyzeModuleNullDistribution` of `nullDistributionTest.go`. -/
def analyzeModuleNullDistribution (corr : List (Fl K) → List (Fl K) → Fl K) (sqrt erf : K → K)
    (numWorkers : Nat) (moduleName : String) (moduleMap : ModuleMap)
    (condition1Data condition2Data : ExpressionMap K)
    (draws1 draws2 : Nat → Nat → List Nat) : Option (NullDistributionStats K) :=
  let moduleGenes := moduleGenesOf moduleName moduleMap
  (createNullDistributions corr sqrt erf numWorkers moduleGenes condition1Data condition2Data
    draws1 draws2).map fun r =>
      NullDistributionStats.mk moduleName moduleGenes.length r.1.1 r.1.2 r.2.1 r.2.2

end Orchestration

/-- The module map of the end-to-end example of the spec: `g1`, `g2` and `g3`
all in module `M1`. -/
def moduleMapSpec : ModuleMap := [("g1", "M1"), ("g2", "M1"), ("g3", "M1")]

/-- An expression map from which gene `g3` of module `M1` is absent. -/
def exprTwoGenes : ExpressionMap ℚ :=
  [("g1", [some 1, some 2, some 3, some 4]),
   ("g2", [some 2, some 4, some 6, some 8])]

/-- An expression map in which gene `c`, with three samples, is shorter than
the genes `a` and `b`, with four samples each. -/
def exprTrunc : ExpressionMap ℚ :=
  [("a", [some 1, some 2, some 3, some 4]),
   ("b", [some 2, some 4, some 6, some 9]),
   ("c", [some 5, some 7, some 6])]

/-! ## Module discovery and the result rows -/

/-- The function `getUniqueModules` of `moduleCorrelationTesting.go`: the keys
of the `map[string]bool` it builds, every value of which is `true`. -/
def getUniqueModules (moduleMap : ModuleMap) : List String :=
  moduleMap.foldl (fun modules e => if e.2 ∈ modules then modules else modules ++ [e.2]) []

section Writers

variable {K : Type} [LinearOrderedField K]

/-- The rows that `writeModuleCorrelationResults` of `main.go` writes, one call
of `analyzeModule` for each key of `getUniqueModules`; the file is not
modelled. -/
def writeModuleCorrelationResults (corr : List (Fl K) → List (Fl K) → Fl K) (sqrt erf : K → K)
    (numWorkers : Nat) (moduleMap : ModuleMap)
    (condition1Data condition2Data : ExpressionMap K) : Option (List (ModuleStats K)) :=
  sequenceAll ((getUniqueModules moduleMap).map fun module =>
    analyzeModule corr sqrt erf numWorkers module moduleMap condition1Data condition2Data)

/-- The rows that `writeNullDistributionResults` of `main.go` writes, one call
of `analyzeModuleNullDistribution` for each key of `getUniqueModules`; the
random draws of a module are `draws1 module` and `draws2 module`. -/
def writeNullDistributionResults (corr : List (Fl K) → List (Fl K) → Fl K) (sqrt erf : K → K)
    (numWorkers : Nat) (moduleMap : ModuleMap)
    (condition1Data condition2Data : ExpressionMap K)
    (draws1 draws2 : String → Nat → Nat → List Nat) :
    Option (List (NullDistributionStats K)) :=
  sequenceAll ((getUniqueModules moduleMap).map fun module =>
    analyzeModuleNullDistribution corr sqrt erf numWorkers module moduleMap
      condition1Data condition2Data (draws1 module) (draws2 module))

end Writers

/-- A module map with two genes in module `M1` and one gene in module `M2`. -/
def moduleMapTwo : ModuleMap := [("g1", "M1"), ("g2", "M1"), ("g3", "M2")]

/-! ## The position pairs evaluated by the engine -/

/-- The position pairs on which the worker loops of `getModuleCorrelations`
pass the guard `i >= len(genes) || j >= len(genes)`, for `n` genes and
`numWorkers` workers, in the order of the indices visited. -/
def evaluatedPairs (n numWorkers : Nat) : List (Nat × Nat) :=
  ((workIndices (n * (n - 1) / 2) numWorkers).map getGeneIndices).filter
    fun p => decide (p.1 < n ∧ p.2 < n)

/-- What the worker loop of `getModuleCorrelations` sends for a position pair
that passed the guard: the correlation of the two genes cut to `minSamples`
when both are in the map and the correlation is not NaN. -/
def pairCorrelation {K : Type} (corr : List (Fl K) → List (Fl K) → Fl K) (genes : List String)
    (expressionData : ExpressionMap K) (p : Nat × Nat) : List (Fl K) :=
  match genes[p.1]?, genes[p.2]? with
  | some g1, some g2 =>
    match expressionData.lookup g1, expressionData.lookup g2 with
    | some e1, some e2 =>
      if (corr (e1.take (minSamples expressionData).toNat)
          (e2.take (minSamples expressionData).toNat)).isNone then []
      else [corr (e1.take (minSamples expressionData).toNat)
          (e2.take (minSamples expressionData).toNat)]
    | _, _ => []
  | _, _ => []

/-! ## Quantile normalisation -/

section Quantiles

variable {K : Type} [LinearOrderedField K]

/-- A `*mat.Dense` of the gonum library as the list of its rows, all of the
same length. -/
abbrev Dense (K : Type) := List (List (Fl K))

/-- The method `Dims`: the number of rows and of columns. -/
def dims (data : Dense K) : Nat × Nat := (data.length, (data.headD []).length)

/-- The method `At`; `none` is the runtime failure of an index out of range. -/
def matAt (data : Dense K) (i j : Nat) : Option (Fl K) := (data[i]?).bind fun row => row[j]?

/-- The function `mat.Col(nil, j, data)`: column `j` as a slice. -/
def matCol (j : Nat) (data : Dense K) : Option (List (Fl K)) :=
  sequenceAll (data.map fun row => row[j]?)

/-- The order of `sort.Float64s`: NaN before every number, numbers in
increasing order. -/
def floatLE (a b : Fl K) : Bool :=
  match a, b with
  | none, _ => true
  | some _, none => false
  | some x, some y => decide (x ≤ y)

/-- The function `sort.Float64s`, as an insertion sort. -/
def sortFloat64s (l : List (Fl K)) : List (Fl K) :=
  l.insertionSort fun a b => floatLE a b = true

/-- The equality `==` of `float64` that a map with `float64` keys uses: NaN is
equal to nothing. -/
def floatEq (a b : Fl K) : Bool :=
  match a, b with
  | some x, some y => decide (x = y)
  | _, _ => false

/-- The loop `for i, v := range sorted { rankMap[v] = float64(i) }` from index
`i` on; the map is its lookup function. -/
def rankMapFrom (i : Nat) : List (Fl K) → (Fl K → Option Nat) → (Fl K → Option Nat)
  | [], m => m
  | v :: rest, m => rankMapFrom (i + 1) rest fun k => if floatEq k v then some i else m k

/-- The body of the loop over the columns of `NormalizeQuantiles`: the values
set in column `j` of the result, for the rows `0, ..., rows - 1`. A key that
is not in the map has rank `0`. -/
def normalizeColumn (data : Dense K) (rows j : Nat) : Option (List (Fl K)) :=
  (matCol j data).bind fun col =>
    let sorted := sortFloat64s col
    let rankMap := rankMapFrom 0 sorted fun _ => none
    sequenceAll ((List.range rows).map fun i =>
      (matAt data i j).bind fun val => sorted[((rankMap val).getD 0)]?)

/-- The function `NormalizeQuantiles` of `preprocess.go`. `mat.NewDense` fails
for a matrix without rows or without columns; the result starts as the zero
matrix and every entry is set once. -/
def NormalizeQuantiles (data : Dense K) : Option (Dense K) :=
  let rows := (dims data).1
  let cols := (dims data).2
  if rows = 0 ∨ cols = 0 then none
  else
    (sequenceAll ((List.range cols).map fun j => normalizeColumn data rows j)).map fun columns =>
      (List.range rows).map fun i => columns.map fun c => c.getD i (some 0)

end Quantiles

/-- A matrix with the columns `1, 2` and `10, 20`. -/
def denseTwoByTwo : Dense ℚ := [[some 1, some 10], [some 2, some 20]]

/-! ## Lemmas on the linear index -/

theorem two_mul_tri (i : Nat) : 2 * (i * (i + 1) / 2) = i * (i + 1) :=
  Nat.mul_div_cancel' (Nat.even_mul_succ_self i).two_dvd

theorem triRoot_eq (i r : Nat) (hr : r ≤ i) :
    (Nat.sqrt (1 + 8 * (i * (i + 1) / 2 + r)) - 1) / 2 = i := by
  have h2 := two_mul_tri i
  have hlo : 2 * i + 1 ≤ Nat.sqrt (1 + 8 * (i * (i + 1) / 2 + r)) := by
    rw [Nat.le_sqrt']
    nlinarith
  have hhi : Nat.sqrt (1 + 8 * (i * (i + 1) / 2 + r)) < 2 * i + 3 := by
    rw [Nat.sqrt_lt']
    nlinarith
  omega

theorem getGeneIndices_tri (i r : Nat) (hr : r ≤ i) :
    getGeneIndices (i * (i + 1) / 2 + r) = (i, r + i + 1) := by
  simp only [getGeneIndices, triRoot_eq i r hr]
  congr 2
  omega

theorem tri_succ (i : Nat) : (i + 1) * (i + 1 + 1) / 2 = i * (i + 1) / 2 + i + 1 := by
  have h1 := two_mul_tri i
  have h2 := two_mul_tri (i + 1)
  nlinarith

theorem exists_tri_decomp (idx : Nat) : ∃ i r, r ≤ i ∧ idx = i * (i + 1) / 2 + r := by
  induction idx with
  | zero => exact ⟨0, 0, le_refl 0, by simp⟩
  | succ k ih =>
    obtain ⟨i, r, hr, hk⟩ := ih
    by_cases h : r < i
    · exact ⟨i, r + 1, h, by omega⟩
    · refine ⟨i + 1, 0, Nat.zero_le _, ?_⟩
      have := tri_succ i
      omega

theorem tri_mono {a b : Nat} (h : a ≤ b) : a * (a + 1) / 2 ≤ b * (b + 1) / 2 :=
  Nat.div_le_div_right (Nat.mul_le_mul h (Nat.succ_le_succ h))

theorem getGeneIndices_snd_ge (n idx : Nat) (h : n * (n - 1) / 2 ≤ idx) :
    n ≤ (getGeneIndices idx).2 := by
  obtain ⟨i, r, hr, rfl⟩ := exists_tri_decomp idx
  rw [getGeneIndices_tri i r hr]
  show n ≤ r + i + 1
  by_contra hlt
  have hle : i + 1 ≤ n - 1 := by omega
  have h1 := tri_mono hle
  have h2 := tri_succ i
  have h3 : (n - 1) * (n - 1 + 1) = n * (n - 1) := by
    have : n - 1 + 1 = n := by omega
    rw [this, Nat.mul_comm]
  rw [h3] at h1
  omega

theorem getGeneIndices_zero : getGeneIndices 0 = (0, 1) :=
  getGeneIndices_tri 0 0 (by decide)

theorem getGeneIndices_one : getGeneIndices 1 = (1, 2) :=
  getGeneIndices_tri 1 0 (by decide)

theorem getGeneIndices_two : getGeneIndices 2 = (1, 3) :=
  getGeneIndices_tri 1 1 (by decide)

theorem getGeneIndices_three : getGeneIndices 3 = (2, 3) :=
  getGeneIndices_tri 2 0 (by decide)

theorem getGeneIndices_four : getGeneIndices 4 = (2, 4) :=
  getGeneIndices_tri 2 1 (by decide)

theorem getGeneIndices_five : getGeneIndices 5 = (2, 5) :=
  getGeneIndices_tri 2 2 (by decide)

/-! ## Lemmas on the work partition -/

theorem flatMap_range_blocks (p m : Nat) :
    ((List.range m).flatMap fun w => List.range' (w * p) p) = List.range (m * p) := by
  induction m with
  | zero => simp
  | succ k ih =>
    rw [List.range_succ, List.flatMap_append, ih]
    simp only [List.flatMap_cons, List.flatMap_nil, List.append_nil]
    rw [List.range_eq_range', List.range_eq_range']
    have h := List.range'_append_1 0 (k * p) p
    rw [Nat.zero_add] at h
    rw [h]
    congr 1
    ring

theorem workIndices_eq (total W : Nat) (hW : 1 ≤ W) :
    workIndices total W = List.range (max total (W - 1)) := by
  obtain ⟨m, rfl⟩ : ∃ m, W = m + 1 := ⟨W - 1, by omega⟩
  unfold workIndices
  rw [List.range_succ, List.flatMap_append]
  have hfront : ((List.range m).flatMap fun w =>
      loopIndices (workerRange total (m + 1) w)) =
      List.range (m * pairsPerWorker total (m + 1)) := by
    rw [← flatMap_range_blocks]
    apply List.flatMap_congr
    intro w hw
    have hw2 : w ≠ m := by
      have := List.mem_range.mp hw
      omega
    simp only [loopIndices, workerRange, Nat.add_sub_cancel, hw2, if_false]
    congr 1
    have : (w + 1) * pairsPerWorker total (m + 1) =
      w * pairsPerWorker total (m + 1) + pairsPerWorker total (m + 1) := by ring
    omega
  rw [hfront]
  simp only [List.flatMap_cons, List.flatMap_nil, List.append_nil, loopIndices, workerRange,
    Nat.add_sub_cancel, if_true]
  rw [List.range_eq_range', List.range_eq_range']
  have hsplit : (total - m * pairsPerWorker total (m + 1)) + m * pairsPerWorker total (m + 1) =
      max total m := by
    unfold pairsPerWorker
    split
    · omega
    · rename_i hge
      have h1 : (m + 1) * (total / (m + 1)) ≤ total := Nat.mul_div_le total (m + 1)
      have h2 : (m + 1) * (total / (m + 1)) = m * (total / (m + 1)) + total / (m + 1) := by ring
      have h3 : m * 1 ≤ m * (total / (m + 1)) := Nat.mul_le_mul_left m (by omega)
      omega
  have h := List.range'_append_1 0 (m * pairsPerWorker total (m + 1))
    (total - m * pairsPerWorker total (m + 1))
  rw [Nat.zero_add] at h
  rw [h, hsplit]

/-! ## Lemmas on the floating-point model -/

section FloatLemmas

variable {K : Type} [LinearOrderedField K]

@[simp] theorem fadd_some (a b : K) : fadd (some a) (some b) = some (a + b) := rfl

@[simp] theorem fsub_some (a b : K) : fsub (some a) (some b) = some (a - b) := rfl

@[simp] theorem fmul_some (a b : K) : fmul (some a) (some b) = some (a * b) := rfl

@[simp] theorem fdiv_some (a b : K) :
    fdiv (some a) (some b) = if b = 0 then none else some (a / b) := rfl

@[simp] theorem fabs_some (a : K) : fabs (some a) = some (abs a) := rfl

@[simp] theorem fsqrt_some (sqrt : K → K) (a : K) :
    fsqrt sqrt (some a) = if a < 0 then none else some (sqrt a) := rfl

@[simp] theorem fadd_none_left (b : Fl K) : fadd none b = none := rfl

@[simp] theorem fdiv_none_left (b : Fl K) : fdiv none b = none := rfl

theorem foldl_fadd_none (l : List (Fl K)) : l.foldl fadd none = none := by
  induction l with
  | nil => rfl
  | cons a l ih => simpa [List.foldl] using ih

theorem foldl_fadd_map_some (a : K) (xs : List K) :
    (xs.map some).foldl fadd (some a) = some (a + xs.sum) := by
  induction xs generalizing a with
  | nil => simp
  | cons x xs ih => simp [List.foldl, ih, add_assoc]

theorem fsum_map_some (xs : List K) : fsum (xs.map some) = some xs.sum := by
  simp [fsum, foldl_fadd_map_some]

theorem natCast_ne_zero_of_pos {n : Nat} (h : 0 < n) : (n : K) ≠ 0 :=
  Nat.cast_ne_zero.mpr (by omega)

theorem mean_map_some (xs : List K) (h : 0 < xs.length) :
    mean (xs.map some) = some (avg xs) := by
  simp [mean, avg, fsum_map_some, ofLen, natCast_ne_zero_of_pos h]

theorem sumSq_map_some (m : K) (xs : List K) :
    sumSq (some m) (xs.map some) = some ((xs.map fun v => (v - m) * (v - m)).sum) := by
  unfold sumSq
  rw [List.map_map]
  have : ((fun v : Fl K => fmul (fsub v (some m)) (fsub v (some m))) ∘ some) =
      some ∘ fun v => (v - m) * (v - m) := by
    funext v; simp
  rw [this, ← List.map_map, fsum_map_some]

theorem natCast_sub_one_ne_zero {n : Nat} (h : 2 ≤ n) : (n : K) - 1 ≠ 0 := by
  have : (1 : K) < (n : K) := by exact_mod_cast h
  exact sub_ne_zero.mpr (ne_of_gt this)

theorem variance_map_some (xs : List K) (h : 2 ≤ xs.length) :
    variance (xs.map some) = some (sampleVar xs) := by
  unfold variance
  rw [mean_map_some xs (by omega), sumSq_map_some]
  simp [sampleVar, ofLen, natCast_sub_one_ne_zero h]

theorem sampleVar_nonneg (xs : List K) (h : 2 ≤ xs.length) : 0 ≤ sampleVar xs := by
  unfold sampleVar
  apply div_nonneg
  · apply List.sum_nonneg
    intro v hv
    obtain ⟨w, _, rfl⟩ := List.mem_map.mp hv
    exact mul_self_nonneg _
  · have : (1 : K) < (xs.length : K) := by exact_mod_cast h
    linarith

end FloatLemmas

@[simp] theorem ferf_some {K : Type} (erf : K → K) (a : K) :
    ferf erf (some a) = some (erf a) := rfl

/-! ## Lemmas on the significance statistic -/

section Sig
variable {K : Type} [LinearOrderedField K]

theorem ttest_core (sqrt erf : K → K) (hsqrt : ∀ v, 0 < v → sqrt v ≠ 0)
    (xs ys : List K) (hx : 2 ≤ xs.length) (hy : 2 ≤ ys.length)
    (hvx : sampleVar xs ≠ 0) (hvy : sampleVar ys ≠ 0) :
    calculateTTest sqrt erf (xs.map some) (ys.map some) =
        (some (welchT sqrt xs ys),
         some (2 * (1 - phi sqrt erf (abs (welchT sqrt xs ys))))) ∧
    compareWithNull sqrt erf (xs.map some) (ys.map some) =
        (some (welchT sqrt xs ys),
         some (2 * (1 - phi sqrt erf (abs (welchT sqrt xs ys))))) := by
  have hnx : (xs.length : K) ≠ 0 := natCast_ne_zero_of_pos (by omega)
  have hny : (ys.length : K) ≠ 0 := natCast_ne_zero_of_pos (by omega)
  have hpx : 0 < sampleVar xs := lt_of_le_of_ne (sampleVar_nonneg xs hx) (Ne.symm hvx)
  have hpy : 0 < sampleVar ys := lt_of_le_of_ne (sampleVar_nonneg ys hy) (Ne.symm hvy)
  have hlx : (0 : K) < (xs.length : K) := by exact_mod_cast (by omega : 0 < xs.length)
  have hly : (0 : K) < (ys.length : K) := by exact_mod_cast (by omega : 0 < ys.length)
  have harg : 0 < sampleVar xs / (xs.length : K) + sampleVar ys / (ys.length : K) :=
    add_pos (div_pos hpx hlx) (div_pos hpy hly)
  have hse := hsqrt _ harg
  have h2 : sqrt 2 ≠ 0 := hsqrt 2 (by norm_num)
  have h20 : ¬ (2 : K) < 0 := by norm_num
  have hx' : ¬ xs.length < 2 := by omega
  have hy' : ¬ ys.length < 2 := by omega
  constructor
  · simp [calculateTTest, normalCDF, isNaN, List.length_map, hx', hy',
      variance_map_some, mean_map_some, hx, hy, (by omega : 0 < xs.length),
      (by omega : 0 < ys.length), hvx, hvy, ofLen, hnx, hny, not_lt.mpr harg.le, hse, h2, h20,
      welchT, phi]
  · simp [compareWithNull, normalCDF, isNaN, List.length_map, hx', hy',
      variance_map_some, mean_map_some, hx, hy, (by omega : 0 < xs.length),
      (by omega : 0 < ys.length), hvx, hvy, ofLen, hnx, hny, not_lt.mpr harg.le, hse, h2, h20,
      welchT, phi]

theorem tstat_eq_ttest_abs (sqrt erf : K → K) (a n : List (Fl K)) :
    calculateTStatistic sqrt erf a n = calculateTTest sqrt erf (a.map fabs) (n.map fabs) := by
  simp [calculateTStatistic, calculateTTest, List.length_map]

theorem ttest_eq_clamp (sqrt erf : K → K) (a n : List (Fl K)) :
    calculateTTest sqrt erf a n =
      if isNaN (compareWithNull sqrt erf a n).1 ∨ isNaN (compareWithNull sqrt erf a n).2
      then (some 0, some 1) else compareWithNull sqrt erf a n := by
  unfold calculateTTest compareWithNull
  by_cases h1 : a.length < 2 ∨ n.length < 2
  · simp [h1, isNaN]
  · by_cases h2 : variance a = some 0 ∨ variance n = some 0
    · simp [h1, h2, isNaN]
    · by_cases h3 : fsqrt sqrt (fadd (fdiv (variance a) (ofLen a.length))
          (fdiv (variance n) (ofLen n.length))) = some 0
      · simp [h1, h2, h3, isNaN]
      · simp only [h1, h2, h3, if_false]

end Sig

theorem exists_map_some {K : Type} (x : List (Fl K)) (h : ∀ v ∈ x, v ≠ none) :
    ∃ xs : List K, x = xs.map some := by
  induction x with
  | nil => exact ⟨[], rfl⟩
  | cons a x ih =>
    obtain ⟨xs, rfl⟩ := ih fun v hv => h v (List.mem_cons_of_mem _ hv)
    cases a with
    | none => exact absurd rfl (h none (List.mem_cons_self _ _))
    | some v => exact ⟨v :: xs, rfl⟩

section Zero
variable {K : Type} [LinearOrderedField K]

theorem foldl_fadd_eq_some (l : List (Fl K)) (acc : Fl K) (s : K)
    (h : l.foldl fadd acc = some s) : ∀ v ∈ l, v ≠ none := by
  induction l generalizing acc with
  | nil => intro v hv; cases hv
  | cons a l ih =>
    intro v hv
    rw [List.foldl_cons] at h
    rcases List.mem_cons.mp hv with rfl | hv
    · rintro rfl
      have : fadd acc none = none := by cases acc <;> rfl
      rw [this, foldl_fadd_none] at h
      cases h
    · exact ih _ h v hv

theorem exists_map_some_of_variance (x : List (Fl K)) (s : K) (h : variance x = some s) :
    ∃ xs : List K, x = xs.map some := by
  apply exists_map_some
  intro v hv hnone
  unfold variance at h
  cases hs : sumSq (mean x) x with
  | none => rw [hs] at h; cases h
  | some t =>
    unfold sumSq fsum at hs
    have := foldl_fadd_eq_some _ _ _ hs (fmul (fsub v (mean x)) (fsub v (mean x)))
      (List.mem_map.mpr ⟨v, hv, rfl⟩)
    rw [hnone] at this
    exact this rfl

theorem sum_eq_zero_of_nonneg (l : List K) (hn : ∀ t ∈ l, 0 ≤ t) (hs : l.sum = 0) :
    ∀ t ∈ l, t = 0 := by
  induction l with
  | nil => intro t ht; cases ht
  | cons a l ih =>
    rw [List.sum_cons] at hs
    have ha : 0 ≤ a := hn a (List.mem_cons_self _ _)
    have hl : 0 ≤ l.sum := List.sum_nonneg fun t ht => hn t (List.mem_cons_of_mem _ ht)
    have ha0 : a = 0 := by linarith
    have hl0 : l.sum = 0 := by linarith
    intro t ht
    rcases List.mem_cons.mp ht with rfl | ht
    · exact ha0
    · exact ih (fun t ht => hn t (List.mem_cons_of_mem _ ht)) hl0 t ht

theorem eq_avg_of_sampleVar_eq_zero (xs : List K) (h : 2 ≤ xs.length)
    (hv : sampleVar xs = 0) : ∀ v ∈ xs, v = avg xs := by
  unfold sampleVar at hv
  rcases div_eq_zero_iff.mp hv with hs | hn
  · intro v hvm
    have := sum_eq_zero_of_nonneg _ (by
      intro t ht
      obtain ⟨w, _, rfl⟩ := List.mem_map.mp ht
      exact mul_self_nonneg _) hs ((v - avg xs) * (v - avg xs))
      (List.mem_map.mpr ⟨v, hvm, rfl⟩)
    have h0 : v - avg xs = 0 := mul_self_eq_zero.mp this
    exact sub_eq_zero.mp h0
  · exact absurd hn (natCast_sub_one_ne_zero h)

theorem sum_const (l : List K) (c : K) (h : ∀ v ∈ l, v = c) : l.sum = (l.length : K) * c := by
  induction l with
  | nil => simp
  | cons a l ih =>
    rw [List.sum_cons, ih fun v hv => h v (List.mem_cons_of_mem _ hv),
      h a (List.mem_cons_self _ _)]
    simp only [List.length_cons, Nat.cast_succ]
    ring

theorem sampleVar_const (l : List K) (c : K) (hl : 2 ≤ l.length) (h : ∀ v ∈ l, v = c) :
    sampleVar l = 0 := by
  have havg : avg l = c := by
    unfold avg
    rw [sum_const l c h]
    exact mul_div_cancel_left₀ c (natCast_ne_zero_of_pos (by omega))
  unfold sampleVar
  rw [havg]
  have : (l.map fun v => (v - c) * (v - c)).sum = 0 := by
    apply List.sum_eq_zero
    intro t ht
    obtain ⟨w, hw, rfl⟩ := List.mem_map.mp ht
    rw [h w hw]; ring
  rw [this, zero_div]

theorem variance_abs_eq_zero (x : List (Fl K)) (hl : 2 ≤ x.length)
    (h : variance x = some 0) : variance (x.map fabs) = some 0 := by
  obtain ⟨xs, rfl⟩ := exists_map_some_of_variance x 0 h
  rw [List.length_map] at hl
  rw [variance_map_some xs hl] at h
  have hv : sampleVar xs = 0 := Option.some.inj h
  have heq := eq_avg_of_sampleVar_eq_zero xs hl hv
  have hmap : (xs.map some).map fabs = (xs.map fun v => abs v).map some := by
    simp [List.map_map, Function.comp_def]
  rw [hmap, variance_map_some _ (by simpa using hl)]
  congr 1
  apply sampleVar_const _ (abs (avg xs)) (by simpa using hl)
  intro v hv
  obtain ⟨w, hw, rfl⟩ := List.mem_map.mp hv
  rw [heq w hw]

theorem sentinel_core (sqrt erf : K → K) (x y : List (Fl K))
    (h : x.length < 2 ∨ y.length < 2 ∨ variance x = some 0 ∨ variance y = some 0) :
    calculateTTest sqrt erf x y = (some 0, some 1) ∧
    compareWithNull sqrt erf x y = (some 0, some 1) ∧
    calculateTStatistic sqrt erf x y = (some 0, some 1) := by
  by_cases hlen : x.length < 2 ∨ y.length < 2
  · simp [calculateTTest, compareWithNull, calculateTStatistic, hlen]
  · have hvar : variance x = some 0 ∨ variance y = some 0 := by tauto
    have hx : 2 ≤ x.length := by omega
    have hy : 2 ≤ y.length := by omega
    have habs : variance (x.map fabs) = some 0 ∨ variance (y.map fabs) = some 0 :=
      hvar.imp (variance_abs_eq_zero x hx) (variance_abs_eq_zero y hy)
    simp [calculateTTest, compareWithNull, calculateTStatistic, hlen, hvar, habs]

end Zero

/-! ## Lemmas on the correlation engine -/

section EngineLemmas
variable {K : Type}

theorem minSamples_fold_le (l : ExpressionMap K) (acc : Int) (h : 0 ≤ acc) :
    0 ≤ l.foldl (fun m e => if m = -1 ∨ (e.2.length : Int) < m then (e.2.length : Int) else m) acc ∧
    l.foldl (fun m e => if m = -1 ∨ (e.2.length : Int) < m then (e.2.length : Int) else m) acc ≤ acc ∧
    ∀ e ∈ l,
      l.foldl (fun m e => if m = -1 ∨ (e.2.length : Int) < m then (e.2.length : Int) else m) acc
        ≤ (e.2.length : Int) := by
  induction l generalizing acc with
  | nil => exact ⟨h, le_refl _, fun e he => by cases he⟩
  | cons a l ih =>
    rw [List.foldl_cons]
    have hlen : (0 : Int) ≤ (a.2.length : Int) := Int.natCast_nonneg _
    have hacc' : 0 ≤ (if acc = -1 ∨ (a.2.length : Int) < acc then (a.2.length : Int) else acc) := by
      split <;> assumption
    have hle1 : (if acc = -1 ∨ (a.2.length : Int) < acc then (a.2.length : Int) else acc) ≤ acc := by
      split
      · rename_i hc
        rcases hc with hc | hc <;> omega
      · exact le_refl _
    have hle2 : (if acc = -1 ∨ (a.2.length : Int) < acc then (a.2.length : Int) else acc)
        ≤ (a.2.length : Int) := by
      split
      · exact le_refl _
      · rename_i hc
        push_neg at hc
        exact hc.2
    obtain ⟨h0, h1, h2⟩ := ih _ hacc'
    refine ⟨h0, le_trans h1 hle1, ?_⟩
    intro e he
    rcases List.mem_cons.mp he with rfl | he
    · exact le_trans h1 hle2
    · exact h2 e he

theorem minSamples_bounds (expressionData : ExpressionMap K) :
    ∀ e ∈ expressionData,
      0 ≤ minSamples expressionData ∧ minSamples expressionData ≤ (e.2.length : Int) := by
  cases expressionData with
  | nil => intro e he; cases he
  | cons a l =>
    have hstep : minSamples (a :: l) =
        l.foldl (fun m e => if m = -1 ∨ (e.2.length : Int) < m then (e.2.length : Int) else m)
          (a.2.length : Int) := by
      simp [minSamples]
    obtain ⟨h0, h1, h2⟩ := minSamples_fold_le l (a.2.length : Int) (Int.natCast_nonneg _)
    intro e he
    rw [hstep]
    rcases List.mem_cons.mp he with rfl | he
    · exact ⟨h0, h1⟩
    · exact ⟨h0, h2 e he⟩

theorem mem_of_lookup {α β : Type} [BEq α] (l : List (α × β)) (k : α) (v : β)
    (h : l.lookup k = some v) : ∃ k', (k', v) ∈ l := by
  induction l with
  | nil => simp at h
  | cons a l ih =>
    obtain ⟨a1, a2⟩ := a
    rw [List.lookup_cons] at h
    split at h
    · exact ⟨a1, by simp_all⟩
    · obtain ⟨k', hk⟩ := ih h
      exact ⟨k', List.mem_cons_of_mem _ hk⟩

theorem sliceTo_minSamples (expressionData : ExpressionMap K) (g : String) (v : List (Fl K))
    (h : expressionData.lookup g = some v) :
    sliceTo v (minSamples expressionData) = some (v.take (minSamples expressionData).toNat) := by
  obtain ⟨k', hk⟩ := mem_of_lookup expressionData g v h
  have hb := minSamples_bounds expressionData (k', v) hk
  simp only [sliceTo]
  rw [if_pos hb]

/-- The values the worker loop body sends at index `idx`, when no runtime
failure occurs. -/
theorem processIndex_eq (corr : List (Fl K) → List (Fl K) → Fl K) (genes : List String)
    (expressionData : ExpressionMap K) (idx : Nat) :
    processIndex corr genes expressionData (minSamples expressionData) idx =
      some (
        match genes[(getGeneIndices idx).1]?, genes[(getGeneIndices idx).2]? with
        | some g1, some g2 =>
          match expressionData.lookup g1, expressionData.lookup g2 with
          | some e1, some e2 =>
            if (corr (e1.take (minSamples expressionData).toNat)
                (e2.take (minSamples expressionData).toNat)).isNone then []
            else [corr (e1.take (minSamples expressionData).toNat)
                (e2.take (minSamples expressionData).toNat)]
          | _, _ => []
        | _, _ => []) := by
  unfold processIndex
  by_cases hg : (getGeneIndices idx).1 ≥ genes.length ∨ (getGeneIndices idx).2 ≥ genes.length
  · simp only [hg, if_true]
    rcases hg with hg | hg
    · rw [List.getElem?_eq_none hg]
    · rw [List.getElem?_eq_none hg]
      cases genes[(getGeneIndices idx).1]? <;> rfl
  · simp only [hg, if_false]
    push_neg at hg
    rw [List.getElem?_eq_getElem hg.1, List.getElem?_eq_getElem hg.2]
    simp only
    cases h1 : expressionData.lookup genes[(getGeneIndices idx).1] with
    | none => rfl
    | some e1 =>
      cases h2 : expressionData.lookup genes[(getGeneIndices idx).2] with
      | none => rfl
      | some e2 =>
        simp only [sliceTo_minSamples expressionData _ e1 h1,
          sliceTo_minSamples expressionData _ e2 h2, Option.bind]
        split <;> rfl

theorem processIndex_skip (corr : List (Fl K) → List (Fl K) → Fl K) (genes : List String)
    (expressionData : ExpressionMap K) (minS : Int) (idx : Nat)
    (h : genes.length * (genes.length - 1) / 2 ≤ idx) :
    processIndex corr genes expressionData minS idx = some [] := by
  unfold processIndex
  have := getGeneIndices_snd_ge genes.length idx h
  simp only [ge_iff_le, this, or_true, if_true]

theorem collect_append {β : Type} (f : Nat → Option (List β)) (a b : List Nat) :
    collect f (a ++ b) = (collect f a).bind fun x => (collect f b).map fun y => x ++ y := by
  induction a with
  | nil => simp [collect]
  | cons i a ih =>
    show collect f (i :: (a ++ b)) = _
    rw [collect, ih, collect]
    cases f i with
    | none => rfl
    | some v =>
      cases collect f a with
      | none => rfl
      | some x =>
        cases collect f b with
        | none => rfl
        | some y => simp

theorem collect_skip {β : Type} (f : Nat → Option (List β)) (l : List Nat)
    (h : ∀ i ∈ l, f i = some []) : collect f l = some [] := by
  induction l with
  | nil => rfl
  | cons i l ih =>
    simp [collect, h i (List.mem_cons_self _ _), ih fun j hj => h j (List.mem_cons_of_mem _ hj)]

theorem collect_isSome {β : Type} (f : Nat → Option (List β)) (l : List Nat)
    (h : ∀ i ∈ l, (f i).isSome) : (collect f l).isSome := by
  induction l with
  | nil => rfl
  | cons i l ih =>
    have h1 := h i (List.mem_cons_self _ _)
    have h2 := ih fun j hj => h j (List.mem_cons_of_mem _ hj)
    obtain ⟨v, hv⟩ := Option.isSome_iff_exists.mp h1
    obtain ⟨r, hr⟩ := Option.isSome_iff_exists.mp h2
    simp [collect, hv, hr]

theorem getModuleCorrelations_eq_sequentialPass
    (corr : List (Fl K) → List (Fl K) → Fl K) (numWorkers : Nat) (hW : 1 ≤ numWorkers)
    (genes : List String) (expressionData : ExpressionMap K) :
    getModuleCorrelations corr numWorkers genes expressionData =
      sequentialPass corr genes expressionData := by
  unfold getModuleCorrelations sequentialPass
  simp only
  rw [workIndices_eq _ _ hW]
  have hsplit : List.range (max (genes.length * (genes.length - 1) / 2) (numWorkers - 1)) =
      List.range (genes.length * (genes.length - 1) / 2) ++
        List.range' (genes.length * (genes.length - 1) / 2)
          (max (genes.length * (genes.length - 1) / 2) (numWorkers - 1) -
            genes.length * (genes.length - 1) / 2) := by
    have h := List.range'_append_1 0 (genes.length * (genes.length - 1) / 2)
      (max (genes.length * (genes.length - 1) / 2) (numWorkers - 1) -
        genes.length * (genes.length - 1) / 2)
    rw [Nat.zero_add] at h
    rw [List.range_eq_range', List.range_eq_range', h]
    congr 1
    omega
  rw [hsplit, collect_append, collect_skip _ (List.range' _ _)]
  · cases collect (processIndex corr genes expressionData (minSamples expressionData))
      (List.range (genes.length * (genes.length - 1) / 2)) with
    | none => rfl
    | some x => simp
  · intro i hi
    exact processIndex_skip corr genes expressionData _ i (List.mem_range'_1.mp hi).1

theorem sequentialPass_isSome (corr : List (Fl K) → List (Fl K) → Fl K)
    (genes : List String) (expressionData : ExpressionMap K) :
    (sequentialPass corr genes expressionData).isSome := by
  apply collect_isSome
  intro i _
  rw [processIndex_eq]
  rfl

end EngineLemmas

/-! ## Evaluation lemmas -/

theorem sqrtQ_ne_zero (v : ℚ) (h : 0 < v) : sqrtQ v ≠ 0 := by
  unfold sqrtQ Rat.sqrt
  have hden : Nat.sqrt v.den ≠ 0 := by
    have := Nat.sqrt_pos.mpr v.den_pos
    omega
  rw [Ne, Rat.mkRat_eq_zero hden]
  have hnum : 0 < v.num := Rat.num_pos.mpr h
  unfold Int.sqrt
  have h1 : 0 < v.num.toNat := by omega
  have := Nat.sqrt_pos.mpr h1
  omega

/-- The floor of `(-1 + sqrt (1 + 8 * idx)) / 2` over the real numbers is the
value computed with the integer square root in `getGeneIndices`. -/
theorem floor_triRoot_real (idx : Nat) :
    ⌊(-1 + Real.sqrt (1 + 8 * (idx : ℝ))) / 2⌋₊ = (Nat.sqrt (1 + 8 * idx) - 1) / 2 := by
  obtain ⟨i, r, hr, rfl⟩ := exists_tri_decomp idx
  rw [triRoot_eq i r hr]
  have h2 := two_mul_tri i
  have hcast : ((i * (i + 1) / 2 + r : Nat) : ℝ) = (i : ℝ) * (i + 1) / 2 + r := by
    have : (2 : ℝ) * ((i * (i + 1) / 2 : Nat) : ℝ) = (i : ℝ) * (i + 1) := by
      exact_mod_cast h2
    push_cast
    linarith
  rw [hcast]
  have hr' : (r : ℝ) ≤ i := by exact_mod_cast hr
  have hi0 : (0 : ℝ) ≤ i := Nat.cast_nonneg i
  have hr0 : (0 : ℝ) ≤ r := Nat.cast_nonneg r
  have hlo : (2 * (i : ℝ) + 1) ≤ Real.sqrt (1 + 8 * ((i : ℝ) * (i + 1) / 2 + r)) := by
    apply Real.le_sqrt_of_sq_le
    nlinarith
  have hhi : Real.sqrt (1 + 8 * ((i : ℝ) * (i + 1) / 2 + r)) < 2 * (i : ℝ) + 3 := by
    rw [Real.sqrt_lt' (by linarith)]
    nlinarith
  rw [Nat.floor_eq_iff (by linarith)]
  constructor <;> linarith

theorem sqrtQ_mul_self (q : ℚ) (h : 0 ≤ q) : sqrtQ (q * q) = q := by
  unfold sqrtQ
  rw [Rat.sqrt_eq, abs_of_nonneg h]

theorem sqrtQ_four : sqrtQ 4 = 2 := by
  have := sqrtQ_mul_self 2 (by norm_num)
  norm_num at this
  exact this

theorem corr_perm3_g1_g2 :
    correlation sqrtQ [some 1, some 2, some 3] [some 1, some 3, some 2] = some (1 / 2) := by
  norm_num [correlation, sumProd, sumSq, mean, fsum, ofLen, sqrtQ_four]

theorem corr_perm3_g2_g3 :
    correlation sqrtQ [some 1, some 3, some 2] [some 2, some 1, some 3] = some (-1 / 2) := by
  norm_num [correlation, sumProd, sumSq, mean, fsum, ofLen, sqrtQ_four]

theorem corr_perm3_g1_g3 :
    correlation sqrtQ [some 1, some 2, some 3] [some 2, some 1, some 3] = some (1 / 2) := by
  norm_num [correlation, sumProd, sumSq, mean, fsum, ofLen, sqrtQ_four]

theorem minSamples_exprPerm3 : minSamples exprPerm3 = 3 := by decide

theorem range_three : List.range (["g1", "g2", "g3"].length *
    (["g1", "g2", "g3"].length - 1) / 2) = [0, 1, 2] := by decide

theorem eval_perm3 : getModuleCorrelations (correlation sqrtQ) 1 ["g1", "g2", "g3"] exprPerm3 =
    some [some (1 / 2), some (-1 / 2)] := by
  rw [getModuleCorrelations_eq_sequentialPass _ 1 (by decide)]
  unfold sequentialPass
  rw [range_three]
  have h0 : processIndex (correlation sqrtQ) ["g1", "g2", "g3"] exprPerm3
      (minSamples exprPerm3) 0 = some [some (1 / 2)] := by
    rw [processIndex_eq, getGeneIndices_zero, minSamples_exprPerm3]
    simp [exprPerm3, List.lookup, corr_perm3_g1_g2]
  have h1 : processIndex (correlation sqrtQ) ["g1", "g2", "g3"] exprPerm3
      (minSamples exprPerm3) 1 = some [some (-1 / 2)] := by
    rw [processIndex_eq, getGeneIndices_one, minSamples_exprPerm3]
    simp [exprPerm3, List.lookup, corr_perm3_g2_g3]
  have h2 : processIndex (correlation sqrtQ) ["g1", "g2", "g3"] exprPerm3
      (minSamples exprPerm3) 2 = some [] := by
    rw [processIndex_eq, getGeneIndices_two]
    rfl
  simp [collect, h0, h1, h2]

theorem eval_allPairs_perm3 : allPairsCorrelations (correlation sqrtQ) ["g1", "g2", "g3"] exprPerm3 =
    [some (1 / 2), some (1 / 2), some (-1 / 2)] := by
  unfold allPairsCorrelations
  rw [minSamples_exprPerm3]
  simp [List.range_succ, List.range', exprPerm3, List.lookup, corr_perm3_g1_g2, corr_perm3_g2_g3, corr_perm3_g1_g3]

theorem sqrtQ_zero : sqrtQ 0 = 0 := by
  have := sqrtQ_mul_self 0 (le_refl 0)
  norm_num at this
  exact this

theorem sqrtQ_hundred : sqrtQ 100 = 10 := by
  have := sqrtQ_mul_self 10 (by norm_num)
  norm_num at this
  exact this

theorem corr_spec_g1_g2 :
    correlation sqrtQ [some 1, some 2, some 3, some 4] [some 2, some 4, some 6, some 8]
      = some 1 := by
  norm_num [correlation, sumProd, sumSq, mean, fsum, ofLen, sqrtQ_hundred]

theorem corr_spec_const_right (x : List (Fl ℚ)) :
    correlation sqrtQ x [some 1, some 1, some 1, some 1] = none := by
  have h : sumSq (mean [some (1 : ℚ), some 1, some 1, some 1]) [some 1, some 1, some 1, some 1]
      = some 0 := by
    norm_num [sumSq, mean, fsum, ofLen]
  unfold correlation
  rw [h]
  cases hx : sumSq (mean x) x with
  | none => cases sumProd x [some 1, some 1, some 1, some 1] <;> rfl
  | some v =>
    cases sumProd x [some 1, some 1, some 1, some 1] with
    | none => rfl
    | some w => simp [sqrtQ_zero]

theorem corr_spec_const_left (y : List (Fl ℚ)) :
    correlation sqrtQ [some 1, some 1, some 1, some 1] y = none := by
  have h : sumSq (mean [some (1 : ℚ), some 1, some 1, some 1]) [some 1, some 1, some 1, some 1]
      = some 0 := by
    norm_num [sumSq, mean, fsum, ofLen]
  unfold correlation
  rw [h]
  cases hx : sumSq (mean y) y with
  | none => cases sumProd [some 1, some 1, some 1, some 1] y <;> rfl
  | some v =>
    cases sumProd [some 1, some 1, some 1, some 1] y with
    | none => rfl
    | some w => simp [sqrtQ_zero]

theorem minSamples_exprSpec : minSamples exprSpec = 4 := by decide

theorem range_three_perm : List.range (["g1", "g3", "g2"].length *
    (["g1", "g3", "g2"].length - 1) / 2) = [0, 1, 2] := by decide

theorem eval_spec_order : getModuleCorrelations (correlation sqrtQ) 1 ["g1", "g2", "g3"] exprSpec =
    some [some 1] := by
  rw [getModuleCorrelations_eq_sequentialPass _ 1 (by decide)]
  unfold sequentialPass
  rw [range_three]
  have h0 : processIndex (correlation sqrtQ) ["g1", "g2", "g3"] exprSpec
      (minSamples exprSpec) 0 = some [some 1] := by
    rw [processIndex_eq, getGeneIndices_zero, minSamples_exprSpec]
    simp [exprSpec, List.lookup, corr_spec_g1_g2]
  have h1 : processIndex (correlation sqrtQ) ["g1", "g2", "g3"] exprSpec
      (minSamples exprSpec) 1 = some [] := by
    rw [processIndex_eq, getGeneIndices_one, minSamples_exprSpec]
    simp [exprSpec, List.lookup, corr_spec_const_right]
  have h2 : processIndex (correlation sqrtQ) ["g1", "g2", "g3"] exprSpec
      (minSamples exprSpec) 2 = some [] := by
    rw [processIndex_eq, getGeneIndices_two]
    rfl
  simp [collect, h0, h1, h2]

theorem eval_spec_permuted :
    getModuleCorrelations (correlation sqrtQ) 1 ["g1", "g3", "g2"] exprSpec = some [] := by
  rw [getModuleCorrelations_eq_sequentialPass _ 1 (by decide)]
  unfold sequentialPass
  rw [range_three_perm]
  have h0 : processIndex (correlation sqrtQ) ["g1", "g3", "g2"] exprSpec
      (minSamples exprSpec) 0 = some [] := by
    rw [processIndex_eq, getGeneIndices_zero, minSamples_exprSpec]
    simp [exprSpec, List.lookup, corr_spec_const_right]
  have h1 : processIndex (correlation sqrtQ) ["g1", "g3", "g2"] exprSpec
      (minSamples exprSpec) 1 = some [] := by
    rw [processIndex_eq, getGeneIndices_one, minSamples_exprSpec]
    simp [exprSpec, List.lookup, corr_spec_const_left]
  have h2 : processIndex (correlation sqrtQ) ["g1", "g3", "g2"] exprSpec
      (minSamples exprSpec) 2 = some [] := by
    rw [processIndex_eq, getGeneIndices_two]
    rfl
  simp [collect, h0, h1, h2]

theorem sqrtQ_25_4 : sqrtQ (25 / 4) = 5 / 2 := by
  have := sqrtQ_mul_self (5 / 2) (by norm_num)
  norm_num at this
  exact this

theorem eval_compareWithNull_raw :
    (compareWithNull sqrtQ erfQ [some (-1), some (-4)] [some 1, some 5]).1 = some (-11 / 5) := by
  norm_num [compareWithNull, variance, sumSq, mean, fsum, ofLen, sqrtQ_25_4]

theorem eval_compareWithNull_abs :
    (compareWithNull sqrtQ erfQ ([some (-1), some (-4)].map fabs)
      ([some 1, some 5].map fabs)).1 = some (-1 / 5) := by
  norm_num [compareWithNull, variance, sumSq, mean, fsum, ofLen, sqrtQ_25_4, abs_of_pos]

theorem sampleVar_pair_a : sampleVar [(-1 : ℚ), -4] = 9 / 2 := by
  norm_num [sampleVar, avg]

theorem sampleVar_pair_b : sampleVar [(1 : ℚ), 5] = 8 := by
  norm_num [sampleVar, avg]

theorem sampleVar_pair_c : sampleVar [(1 : ℚ), 4] = 9 / 2 := by
  norm_num [sampleVar, avg]

theorem welchT_raw : welchT sqrtQ [(-1 : ℚ), -4] [1, 5] = -11 / 5 := by
  unfold welchT
  rw [sampleVar_pair_a, sampleVar_pair_b]
  norm_num [avg, sqrtQ_25_4]

theorem welchT_abs : welchT sqrtQ [(1 : ℚ), 4] [1, 5] = -1 / 5 := by
  unfold welchT
  rw [sampleVar_pair_c, sampleVar_pair_b]
  norm_num [avg, sqrtQ_25_4]

theorem abs_pair_a : [some (-1 : ℚ), some (-4)].map fabs = [(1 : ℚ), 4].map some := by
  norm_num [fabs]

theorem abs_pair_b : [some (1 : ℚ), some 5].map fabs = [(1 : ℚ), 5].map some := by
  norm_num [fabs]

theorem eval_calculateTTest_raw :
    (calculateTTest sqrtQ erfQ [some (-1), some (-4)] [some 1, some 5]).1 = some (-11 / 5) := by
  have h := (ttest_core sqrtQ erfQ sqrtQ_ne_zero [-1, -4] [1, 5] (by decide) (by decide)
    (by rw [sampleVar_pair_a]; norm_num) (by rw [sampleVar_pair_b]; norm_num)).1
  rw [welchT_raw] at h
  exact congrArg Prod.fst h

theorem eval_calculateTTest_abs :
    (calculateTTest sqrtQ erfQ ([some (-1), some (-4)].map fabs)
      ([some 1, some 5].map fabs)).1 = some (-1 / 5) := by
  rw [abs_pair_a, abs_pair_b]
  have h := (ttest_core sqrtQ erfQ sqrtQ_ne_zero [1, 4] [1, 5] (by decide) (by decide)
    (by rw [sampleVar_pair_c]; norm_num) (by rw [sampleVar_pair_b]; norm_num)).1
  rw [welchT_abs] at h
  exact congrArg Prod.fst h

/-! ## The claims -/

/-- C1 (defect of the code): for the gene list `g1, g2, g3` of `exprPerm3`, all three
genes present and no correlation NaN, `getModuleCorrelations` returns only the
two values `1/2` and `-1/2`, whereas the correlations of all `3 * 2 / 2 = 3`
position pairs are `1/2`, `1/2` and `-1/2`: the pair of positions `(0, 2)` is
never evaluated. -/
theorem getModuleCorrelations_misses_a_pair :
    getModuleCorrelations (correlation sqrtQ) 1 ["g1", "g2", "g3"] exprPerm3 =
      some [some (1 / 2), some (-1 / 2)] ∧
    allPairsCorrelations (correlation sqrtQ) ["g1", "g2", "g3"] exprPerm3 =
      [some (1 / 2), some (1 / 2), some (-1 / 2)] :=
  ⟨eval_perm3, eval_allPairs_perm3⟩

/-- C2 (defect of the code): the indices `0, ..., 5` are mapped by `getGeneIndices` to
`(0,1), (1,2), (1,3), (2,3), (2,4), (2,5)`, not to the nested-loop order
`(0,1), (0,2), (0,3), (1,2), (1,3), (2,3)` of the upper triangle for `n = 4`. -/
theorem getGeneIndices_first_six :
    (List.range 6).map getGeneIndices = [(0, 1), (1, 2), (1, 3), (2, 3), (2, 4), (2, 5)] := by
  have h : List.range 6 = [0, 1, 2, 3, 4, 5] := by decide
  rw [h]
  simp only [List.map, getGeneIndices_zero, getGeneIndices_one, getGeneIndices_two,
    getGeneIndices_three, getGeneIndices_four, getGeneIndices_five]

/-- C3 (defect of the code): it is not true that every index below `n * (n - 1) / 2`
is mapped to a pair with `i < j < n`: for `n = 3` the index `2` is mapped to
`(1, 3)`, so the bounds guard is taken for an in-range index. -/
theorem getGeneIndices_leaves_triangle :
    ¬ ∀ n idx : Nat, 2 ≤ n → idx < n * (n - 1) / 2 →
      (getGeneIndices idx).1 < (getGeneIndices idx).2 ∧ (getGeneIndices idx).2 < n := by
  intro h
  have h3 := (h 3 2 (by decide) (by decide)).2
  rw [getGeneIndices_two] at h3
  exact absurd h3 (by decide)

/-- C4 (defect of the code): for the expression map of the spec's end-to-end example,
the gene list `g1, g2, g3` gives the correlations `[1]` and its permutation
`g1, g3, g2` gives none at all. -/
theorem getModuleCorrelations_depends_on_order :
    List.Perm ["g1", "g2", "g3"] ["g1", "g3", "g2"] ∧
    getModuleCorrelations (correlation sqrtQ) 1 ["g1", "g2", "g3"] exprSpec = some [some 1] ∧
    getModuleCorrelations (correlation sqrtQ) 1 ["g1", "g3", "g2"] exprSpec = some [] :=
  ⟨by decide, eval_spec_order, eval_spec_permuted⟩

/-- C5: for a fixed gene list and expression map, `getModuleCorrelations` returns a
result for every worker count `W ≥ 1`, and for any two worker counts the
results are, as multisets, equal to each other and to the result of one
sequential pass over the indices `0, ..., n * (n - 1) / 2 - 1`. -/
theorem getModuleCorrelations_worker_count_irrelevant {K : Type}
    (corr : List (Fl K) → List (Fl K) → Fl K) (W W' : Nat) (hW : 1 ≤ W) (hW' : 1 ≤ W')
    (genes : List String) (expressionData : ExpressionMap K) :
    ∃ r r' s : List (Fl K),
      getModuleCorrelations corr W genes expressionData = some r ∧
      getModuleCorrelations corr W' genes expressionData = some r' ∧
      sequentialPass corr genes expressionData = some s ∧
      Multiset.ofList r = Multiset.ofList s ∧ Multiset.ofList r' = Multiset.ofList s := by
  obtain ⟨s, hs⟩ := Option.isSome_iff_exists.mp (sequentialPass_isSome corr genes expressionData)
  refine ⟨s, s, s, ?_, ?_, hs, rfl, rfl⟩
  · rw [getModuleCorrelations_eq_sequentialPass corr W hW, hs]
  · rw [getModuleCorrelations_eq_sequentialPass corr W' hW', hs]

/-- Witness of C5: one worker and four workers on the three genes of `exprPerm3`. -/
theorem getModuleCorrelations_worker_count_irrelevant_witness :
    ∃ r r' s : List (Fl ℚ),
      getModuleCorrelations (correlation sqrtQ) 1 ["g1", "g2", "g3"] exprPerm3 = some r ∧
      getModuleCorrelations (correlation sqrtQ) 4 ["g1", "g2", "g3"] exprPerm3 = some r' ∧
      sequentialPass (correlation sqrtQ) ["g1", "g2", "g3"] exprPerm3 = some s ∧
      Multiset.ofList r = Multiset.ofList s ∧ Multiset.ofList r' = Multiset.ofList s :=
  getModuleCorrelations_worker_count_irrelevant (correlation sqrtQ) 1 4 (by decide) (by decide)
    ["g1", "g2", "g3"] exprPerm3

/-- C6 as stated fails: with no pair (`total = 0`) and two workers, worker `0` is
handed the range `[0, 1)`, so the index `0` is visited although `[0, total)`
is empty. -/
theorem workIndices_exceed_total :
    workerRange 0 2 0 = (0, 1) ∧ workIndices 0 2 = [0] ∧ List.range 0 = [] := by
  decide

/-- C6, amended: for every total and every worker count `W ≥ 1`, the ranges handed to
consecutive workers are contiguous (the end of one is the start of the next),
the indices visited by all workers, worker by worker, are exactly
`0, 1, ..., max total (W - 1) - 1`, each once, and this is `[0, total)` as soon
as `W - 1 ≤ total`. -/
theorem workIndices_cover (total W : Nat) (hW : 1 ≤ W) :
    (∀ w, w + 1 < W → (workerRange total W w).2 = (workerRange total W (w + 1)).1) ∧
    workIndices total W = List.range (max total (W - 1)) ∧
    (workIndices total W).Nodup ∧
    (W - 1 ≤ total → workIndices total W = List.range total) := by
  refine ⟨?_, workIndices_eq total W hW, ?_, ?_⟩
  · intro w hw
    have : w ≠ W - 1 := by omega
    simp [workerRange, this]
  · rw [workIndices_eq total W hW]
    exact List.nodup_range _
  · intro h
    rw [workIndices_eq total W hW, max_eq_left h]

/-- Witness of C6, amended: ten pairs split over three workers. -/
theorem workIndices_cover_witness :
    (∀ w, w + 1 < 3 → (workerRange 10 3 w).2 = (workerRange 10 3 (w + 1)).1) ∧
    workIndices 10 3 = List.range (max 10 (3 - 1)) ∧
    (workIndices 10 3).Nodup ∧
    (3 - 1 ≤ 10 → workIndices 10 3 = List.range 10) :=
  workIndices_cover 10 3 (by decide)

/-- C7: for two samples of numbers with at least two observations each and non-zero
variances, `calculateTTest` and `compareWithNull` both return the statistic
`(meanA - meanB) / sqrt (varA / |A| + varB / |B|)` and the p-value
`2 * (1 - Phi |statistic|)` with `Phi x = 0.5 * (1 + erf (x / sqrt 2))`, for
every square root that does not vanish on positive numbers. -/
theorem calculateTTest_formula {K : Type} [LinearOrderedField K] (sqrt erf : K → K)
    (hsqrt : ∀ v, 0 < v → sqrt v ≠ 0) (xs ys : List K)
    (hx : 2 ≤ xs.length) (hy : 2 ≤ ys.length)
    (hvx : sampleVar xs ≠ 0) (hvy : sampleVar ys ≠ 0) :
    calculateTTest sqrt erf (xs.map some) (ys.map some) =
        (some (welchT sqrt xs ys),
         some (2 * (1 - phi sqrt erf (abs (welchT sqrt xs ys))))) ∧
    compareWithNull sqrt erf (xs.map some) (ys.map some) =
        (some (welchT sqrt xs ys),
         some (2 * (1 - phi sqrt erf (abs (welchT sqrt xs ys))))) :=
  ttest_core sqrt erf hsqrt xs ys hx hy hvx hvy

/-- Witness of C7: the samples `-1, -4` and `1, 5`. -/
theorem calculateTTest_formula_witness :
    calculateTTest sqrtQ erfQ ([(-1 : ℚ), -4].map some) ([(1 : ℚ), 5].map some) =
        (some (welchT sqrtQ [(-1 : ℚ), -4] [1, 5]),
         some (2 * (1 - phi sqrtQ erfQ (abs (welchT sqrtQ [(-1 : ℚ), -4] [1, 5]))))) ∧
    compareWithNull sqrtQ erfQ ([(-1 : ℚ), -4].map some) ([(1 : ℚ), 5].map some) =
        (some (welchT sqrtQ [(-1 : ℚ), -4] [1, 5]),
         some (2 * (1 - phi sqrtQ erfQ (abs (welchT sqrtQ [(-1 : ℚ), -4] [1, 5]))))) :=
  calculateTTest_formula sqrtQ erfQ sqrtQ_ne_zero [-1, -4] [1, 5] (by decide) (by decide)
    (by rw [sampleVar_pair_a]; norm_num) (by rw [sampleVar_pair_b]; norm_num)

/-- C8: whenever either sample has fewer than two observations or the variance of
either sample is exactly zero, `calculateTTest`, `compareWithNull` and
`calculateTStatistic` all return exactly `(0, 1)`. The three functions are
total, so no error can be returned. -/
theorem sentinel_on_insufficient_data {K : Type} [LinearOrderedField K] (sqrt erf : K → K)
    (x y : List (Fl K))
    (h : x.length < 2 ∨ y.length < 2 ∨ variance x = some 0 ∨ variance y = some 0) :
    calculateTTest sqrt erf x y = (some 0, some 1) ∧
    compareWithNull sqrt erf x y = (some 0, some 1) ∧
    calculateTStatistic sqrt erf x y = (some 0, some 1) :=
  sentinel_core sqrt erf x y h

/-- Witness of C8: the two examples of the spec, `significance([], [1,2,3])` and
`significance([1,1,1], [2,2,2])`. -/
theorem sentinel_on_insufficient_data_witness :
    (calculateTTest sqrtQ erfQ [] [some 1, some 2, some 3] = (some 0, some 1) ∧
     compareWithNull sqrtQ erfQ [] [some 1, some 2, some 3] = (some 0, some 1) ∧
     calculateTStatistic sqrtQ erfQ [] [some 1, some 2, some 3] = (some 0, some 1)) ∧
    (calculateTTest sqrtQ erfQ [some 1, some 1, some 1] [some 2, some 2, some 2]
        = (some 0, some 1) ∧
     compareWithNull sqrtQ erfQ [some 1, some 1, some 1] [some 2, some 2, some 2]
        = (some 0, some 1) ∧
     calculateTStatistic sqrtQ erfQ [some 1, some 1, some 1] [some 2, some 2, some 2]
        = (some 0, some 1)) :=
  ⟨sentinel_on_insufficient_data sqrtQ erfQ [] [some 1, some 2, some 3] (Or.inl (by decide)),
   sentinel_on_insufficient_data sqrtQ erfQ [some 1, some 1, some 1] [some 2, some 2, some 2]
    (Or.inr (Or.inr (Or.inl (by norm_num [variance, sumSq, mean, fsum, ofLen]))))⟩

/-- C9 (defect of the code): for `actual = [-1, -4]` and `null = [1, 5]` the
statistic of `compareWithNull` is `-11/5`, computed from the raw values, while
the statistic computed from the absolute values, which is also what the
sibling routine `calculateTStatistic` returns, is `-1/5`; so `compareWithNull`
differs from its value on the absolute values and from `calculateTStatistic`. -/
theorem compareWithNull_not_absolute :
    (compareWithNull sqrtQ erfQ [some (-1), some (-4)] [some 1, some 5]).1 = some (-11 / 5) ∧
    (compareWithNull sqrtQ erfQ ([some (-1), some (-4)].map fabs)
      ([some 1, some 5].map fabs)).1 = some (-1 / 5) ∧
    (calculateTStatistic sqrtQ erfQ [some (-1), some (-4)] [some 1, some 5]).1
      = some (-1 / 5) ∧
    compareWithNull sqrtQ erfQ [some (-1), some (-4)] [some 1, some 5] ≠
      compareWithNull sqrtQ erfQ ([some (-1), some (-4)].map fabs) ([some 1, some 5].map fabs) ∧
    compareWithNull sqrtQ erfQ [some (-1), some (-4)] [some 1, some 5] ≠
      calculateTStatistic sqrtQ erfQ [some (-1), some (-4)] [some 1, some 5] := by
  refine ⟨eval_compareWithNull_raw, eval_compareWithNull_abs, ?_, ?_, ?_⟩
  · rw [tstat_eq_ttest_abs]
    exact eval_calculateTTest_abs
  · intro h
    have h1 := congrArg Prod.fst h
    rw [eval_compareWithNull_raw, eval_compareWithNull_abs] at h1
    norm_num at h1
  · intro h
    have h1 := congrArg Prod.fst h
    rw [eval_compareWithNull_raw, tstat_eq_ttest_abs, eval_calculateTTest_abs] at h1
    norm_num at h1

/-- C10: for all samples, `calculateTStatistic` equals `calculateTTest` applied to the
element-wise absolute values of both samples; and `calculateTTest` itself
takes no absolute value: on `[-1, -4]` and `[1, 5]` its statistic is `-11/5`,
on their absolute values `-1/5`. -/
theorem calculateTStatistic_is_calculateTTest_of_abs {K : Type} [LinearOrderedField K]
    (sqrt erf : K → K) (actual null : List (Fl K)) :
    calculateTStatistic sqrt erf actual null =
      calculateTTest sqrt erf (actual.map fabs) (null.map fabs) ∧
    (calculateTTest sqrtQ erfQ [some (-1), some (-4)] [some 1, some 5]).1 = some (-11 / 5) ∧
    (calculateTTest sqrtQ erfQ ([some (-1), some (-4)].map fabs)
      ([some 1, some 5].map fabs)).1 = some (-1 / 5) :=
  ⟨tstat_eq_ttest_abs sqrt erf actual null, eval_calculateTTest_raw, eval_calculateTTest_abs⟩

/-! ## Lemmas on sampling -/

theorem sequenceAll_map_some {β : Type} (l : List β) : sequenceAll (l.map some) = some l := by
  induction l with
  | nil => rfl
  | cons a l ih => simp [sequenceAll, ih]

theorem sequenceAll_eq_none_of_mem {β : Type} (l : List (Option β)) (h : none ∈ l) :
    sequenceAll l = none := by
  induction l with
  | nil => cases h
  | cons a l ih =>
    rcases List.mem_cons.mp h with rfl | h'
    · rfl
    · cases a with
      | none => rfl
      | some v => simp [sequenceAll, ih h']

theorem sequenceAll_length {β : Type} (l : List (Option β)) (r : List β)
    (h : sequenceAll l = some r) : r.length = l.length := by
  induction l generalizing r with
  | nil =>
    simp only [sequenceAll, Option.some.injEq] at h
    subst h
    rfl
  | cons a l ih =>
    cases a with
    | none => simp [sequenceAll] at h
    | some v =>
      cases hl : sequenceAll l with
      | none => simp [sequenceAll, hl] at h
      | some t =>
        simp only [sequenceAll, hl, Option.bind, Option.map, Option.some.injEq] at h
        rw [← h, List.length_cons, List.length_cons, ih t hl]

theorem sequenceAll_isSome {β : Type} (l : List (Option β)) (h : ∀ a ∈ l, a.isSome) :
    (sequenceAll l).isSome := by
  induction l with
  | nil => rfl
  | cons a l ih =>
    obtain ⟨v, rfl⟩ := Option.isSome_iff_exists.mp (h a (List.mem_cons_self _ _))
    obtain ⟨t, ht⟩ := Option.isSome_iff_exists.mp
      (ih fun b hb => h b (List.mem_cons_of_mem _ hb))
    simp [sequenceAll, ht]

theorem range_map_getD {α : Type} (l : List α) (d : α) (m : Nat) (h : m ≤ l.length) :
    (List.range m).map (fun i => l.getD i d) = l.take m := by
  apply List.ext_getElem
  · simp [h]
  · intro i h1 h2
    simp only [List.length_map, List.length_range] at h1
    simp [List.getD_eq_getElem?_getD, List.getElem?_eq_getElem (Nat.lt_of_lt_of_le h1 h)]

theorem sampleGenes_eq (genes : List String) (size : Int) (indices : List Nat)
    (h0 : 0 ≤ size) (hsz : size.toNat ≤ indices.length)
    (hidx : ∀ k ∈ indices, k < genes.length) :
    sampleGenes genes size indices =
      some ((indices.take size.toNat).map fun k => genes.getD k "") := by
  unfold sampleGenes
  rw [if_neg (by omega)]
  have hstep : ((List.range size.toNat).map fun i => (indices[i]?).bind fun k => genes[k]?) =
      ((List.range size.toNat).map fun i => genes.getD (indices.getD i 0) "").map some := by
    rw [List.map_map]
    apply List.map_congr_left
    intro i hi
    have hi' : i < indices.length := Nat.lt_of_lt_of_le (List.mem_range.mp hi) hsz
    have hk : indices[i] < genes.length := hidx _ (List.getElem_mem hi')
    simp [List.getElem?_eq_getElem hi', List.getD_eq_getElem?_getD,
      List.getElem?_eq_getElem hk]
  rw [hstep, sequenceAll_map_some]
  congr 1
  rw [← range_map_getD indices 0 size.toNat hsz, List.map_map]
  rfl

theorem sampleGenes_none_of_large (genes : List String) (size : Int) (indices : List Nat)
    (hlen : indices.length = genes.length) (h : (genes.length : Int) < size) :
    sampleGenes genes size indices = none := by
  unfold sampleGenes
  rw [if_neg (by omega)]
  apply sequenceAll_eq_none_of_mem
  apply List.mem_map.mpr
  refine ⟨genes.length, List.mem_range.mpr (by omega), ?_⟩
  rw [List.getElem?_eq_none (by omega)]
  rfl

theorem perm_range_facts (indices : List Nat) (n : Nat) (h : indices.Perm (List.range n)) :
    indices.length = n ∧ indices.Nodup ∧ ∀ k ∈ indices, k < n := by
  refine ⟨by simpa using h.length_eq, h.nodup_iff.mpr (List.nodup_range n), ?_⟩
  intro k hk
  exact List.mem_range.mp (h.mem_iff.mp hk)

theorem range_map_getD_self (genes : List String) :
    (List.range genes.length).map (fun k => genes.getD k "") = genes := by
  rw [range_map_getD genes "" genes.length (le_refl _), List.take_length]

theorem getD_injOn_of_nodup (genes : List String) (h : genes.Nodup) (x y : Nat)
    (hx : x < genes.length) (hy : y < genes.length)
    (hxy : genes.getD x "" = genes.getD y "") : x = y := by
  rw [List.getD_eq_getElem?_getD, List.getD_eq_getElem?_getD,
    List.getElem?_eq_getElem hx, List.getElem?_eq_getElem hy] at hxy
  simp only [Option.getD_some] at hxy
  exact (List.Nodup.getElem_inj_iff h).mp hxy

theorem getD_mem (genes : List String) (k : Nat) (hk : k < genes.length) :
    genes.getD k "" ∈ genes := by
  rw [List.getD_eq_getElem?_getD, List.getElem?_eq_getElem hk]
  exact List.getElem_mem hk

theorem sampleGenes_core (genes : List String) (size : Int) (indices : List Nat)
    (hnodup : genes.Nodup) (h0 : 0 ≤ size) (hsz : size ≤ (genes.length : Int))
    (hperm : indices.Perm (List.range genes.length)) :
    ∃ s : List String,
      sampleGenes genes size indices = some s ∧
      (s.length : Int) = size ∧
      s.Nodup ∧
      (∀ g ∈ s, g ∈ genes) ∧
      s = (indices.map fun k => genes.getD k "").take size.toNat ∧
      (indices.map fun k => genes.getD k "").Perm genes ∧
      (size = (genes.length : Int) → s.Perm genes) := by
  obtain ⟨hlen, hnd, hlt⟩ := perm_range_facts indices genes.length hperm
  have hm : size.toNat ≤ indices.length := by omega
  have hpermmap : (indices.map fun k => genes.getD k "").Perm genes := by
    have := List.Perm.map (fun k => genes.getD k "") hperm
    rwa [range_map_getD_self] at this
  refine ⟨_, sampleGenes_eq genes size indices h0 hm hlt, ?_, ?_, ?_, ?_, hpermmap, ?_⟩
  · rw [List.length_map, List.length_take, Nat.min_eq_left hm]
    omega
  · apply List.Nodup.map_on
    · intro x hx y hy hxy
      exact getD_injOn_of_nodup genes hnodup x y (hlt x (List.mem_of_mem_take hx))
        (hlt y (List.mem_of_mem_take hy)) hxy
    · exact hnd.sublist (List.take_sublist _ _)
  · intro g hg
    obtain ⟨k, hk, rfl⟩ := List.mem_map.mp hg
    exact getD_mem genes k (hlt k (List.mem_of_mem_take hk))
  · rw [List.map_take]
  · intro hsize
    have : size.toNat = indices.length := by omega
    rw [this, List.take_length]
    exact hpermmap

theorem sampleGenes_none_iff (genes : List String) (size : Int) (indices : List Nat)
    (hperm : indices.Perm (List.range genes.length)) :
    sampleGenes genes size indices = none ↔ size < 0 ∨ (genes.length : Int) < size := by
  obtain ⟨hlen, _, hlt⟩ := perm_range_facts indices genes.length hperm
  constructor
  · intro h
    by_contra hc
    push_neg at hc
    rw [sampleGenes_eq genes size indices hc.1 (by omega) hlt] at h
    cases h
  · rintro (h | h)
    · unfold sampleGenes
      rw [if_pos h]
    · exact sampleGenes_none_of_large genes size indices hlen h

/-! ## Lemmas on the trial count -/

theorem length_flatMap_const {α β : Type} (l : List α) (f : α → List β) (m : Nat)
    (h : ∀ a ∈ l, (f a).length = m) : (l.flatMap f).length = l.length * m := by
  induction l with
  | nil => simp
  | cons a l ih =>
    rw [List.flatMap_cons, List.length_append, h a (List.mem_cons_self _ _),
      ih fun b hb => h b (List.mem_cons_of_mem _ hb), List.length_cons]
    ring

theorem trial_count_arith (W P : Nat) (hW : 1 ≤ W) :
    W * (P / W) ≤ P ∧ P < W * (P / W) + W ∧ (W * (P / W) = P ↔ W ∣ P) := by
  have h1 := Nat.div_add_mod P W
  have h2 := Nat.mod_lt P (by omega : W > 0)
  refine ⟨by omega, by omega, ?_⟩
  rw [Nat.dvd_iff_mod_eq_zero]
  omega

section TrialLemmas

variable {K : Type}

theorem nullTrials_length (corr : List (Fl K) → List (Fl K) → Fl K) (W : Nat)
    (genes : List String) (moduleSize : Int) (conditionData : ExpressionMap K)
    (P : Nat) (draws : Nat → Nat → List Nat) (rs : List (List (Fl K)))
    (h : nullTrials corr W genes moduleSize conditionData P draws = some rs) :
    rs.length = W * (P / W) := by
  unfold nullTrials at h
  rw [sequenceAll_length _ rs h, length_flatMap_const _ _ (P / W), List.length_range]
  intro w _
  rw [List.length_map, List.length_range]

theorem getModuleCorrelations_isSome (corr : List (Fl K) → List (Fl K) → Fl K) (W : Nat)
    (genes : List String) (expressionData : ExpressionMap K) :
    (getModuleCorrelations corr W genes expressionData).isSome := by
  unfold getModuleCorrelations
  apply collect_isSome
  intro i _
  rw [processIndex_eq]
  rfl

theorem nullTrials_isSome (corr : List (Fl K) → List (Fl K) → Fl K) (W : Nat)
    (genes : List String) (moduleSize : Int) (conditionData : ExpressionMap K)
    (P : Nat) (draws : Nat → Nat → List Nat)
    (h0 : 0 ≤ moduleSize) (hsz : moduleSize ≤ (genes.length : Int))
    (hdraws : ∀ w i, (draws w i).Perm (List.range genes.length)) :
    (nullTrials corr W genes moduleSize conditionData P draws).isSome := by
  unfold nullTrials
  apply sequenceAll_isSome
  intro a ha
  obtain ⟨w, _, hw⟩ := List.mem_flatMap.mp ha
  obtain ⟨i, _, rfl⟩ := List.mem_map.mp hw
  obtain ⟨_, _, hlt⟩ := perm_range_facts (draws w i) genes.length (hdraws w i)
  rw [sampleGenes_eq genes moduleSize (draws w i) h0
    (by have := (perm_range_facts (draws w i) genes.length (hdraws w i)).1; omega) hlt]
  exact getModuleCorrelations_isSome corr W _ conditionData

theorem nullTrials_none_of_oversize (corr : List (Fl K) → List (Fl K) → Fl K) (W : Nat)
    (genes : List String) (moduleSize : Int) (conditionData : ExpressionMap K)
    (P : Nat) (draws : Nat → Nat → List Nat)
    (hW : 1 ≤ W) (hP : W ≤ P) (hlen : (draws 0 0).length = genes.length)
    (hsz : (genes.length : Int) < moduleSize) :
    nullTrials corr W genes moduleSize conditionData P draws = none := by
  unfold nullTrials
  apply sequenceAll_eq_none_of_mem
  apply List.mem_flatMap.mpr
  refine ⟨0, List.mem_range.mpr (by omega), ?_⟩
  apply List.mem_map.mpr
  have hq : 0 < P / W := Nat.div_pos hP (by omega)
  refine ⟨0, List.mem_range.mpr hq, ?_⟩
  rw [sampleGenes_none_of_large genes moduleSize (draws 0 0) hlen hsz]
  rfl

end TrialLemmas


/-! ## Lemmas on the values of the correlation engine -/

section ValueLemmas

variable {K : Type}

theorem collect_mem {β : Type} (f : Nat → Option (List β)) (l : List Nat) (r : List β)
    (h : collect f l = some r) (v : β) (hv : v ∈ r) :
    ∃ i ∈ l, ∃ vs, f i = some vs ∧ v ∈ vs := by
  induction l generalizing r with
  | nil =>
    simp only [collect, Option.some.injEq] at h
    subst h
    cases hv
  | cons a l ih =>
    cases ha : f a with
    | none => simp [collect, ha] at h
    | some vs =>
      cases hl : collect f l with
      | none => simp [collect, ha, hl] at h
      | some t =>
        simp only [collect, ha, hl, Option.bind, Option.map, Option.some.injEq] at h
        subst h
        rcases List.mem_append.mp hv with hv | hv
        · exact ⟨a, List.mem_cons_self _ _, vs, ha, hv⟩
        · obtain ⟨i, hi, ws, hws, hvw⟩ := ih t hl hv
          exact ⟨i, List.mem_cons_of_mem _ hi, ws, hws, hvw⟩

theorem minSamples_fold_attained (l : ExpressionMap K) (acc : Int) :
    l.foldl (fun m e => if m = -1 ∨ (e.2.length : Int) < m then (e.2.length : Int) else m) acc
      = acc ∨
    ∃ e ∈ l,
      l.foldl (fun m e => if m = -1 ∨ (e.2.length : Int) < m then (e.2.length : Int) else m) acc
        = (e.2.length : Int) := by
  induction l generalizing acc with
  | nil => exact Or.inl rfl
  | cons a l ih =>
    rw [List.foldl_cons]
    rcases ih (if acc = -1 ∨ (a.2.length : Int) < acc then (a.2.length : Int) else acc)
      with h | ⟨e, he, h⟩
    · rw [h]
      split
      · exact Or.inr ⟨a, List.mem_cons_self _ _, by simp_all⟩
      · exact Or.inl rfl
    · exact Or.inr ⟨e, List.mem_cons_of_mem _ he, h⟩

theorem minSamples_attained (expressionData : ExpressionMap K) (h : expressionData ≠ []) :
    ∃ e ∈ expressionData, minSamples expressionData = (e.2.length : Int) := by
  cases expressionData with
  | nil => exact absurd rfl h
  | cons a l =>
    have hstep : minSamples (a :: l) =
        l.foldl (fun m e => if m = -1 ∨ (e.2.length : Int) < m then (e.2.length : Int) else m)
          (a.2.length : Int) := by
      simp [minSamples]
    rw [hstep]
    rcases minSamples_fold_attained l (a.2.length : Int) with h1 | ⟨e, he, h1⟩
    · exact ⟨a, List.mem_cons_self _ _, h1⟩
    · exact ⟨e, List.mem_cons_of_mem _ he, h1⟩

theorem getModuleCorrelations_mem (corr : List (Fl K) → List (Fl K) → Fl K) (W : Nat)
    (genes : List String) (expressionData : ExpressionMap K) (r : List (Fl K))
    (h : getModuleCorrelations corr W genes expressionData = some r) (v : Fl K) (hv : v ∈ r) :
    ∃ g1 g2 e1 e2, g1 ∈ genes ∧ g2 ∈ genes ∧
      expressionData.lookup g1 = some e1 ∧ expressionData.lookup g2 = some e2 ∧
      v = corr (e1.take (minSamples expressionData).toNat)
        (e2.take (minSamples expressionData).toNat) ∧ v ≠ none := by
  unfold getModuleCorrelations at h
  obtain ⟨idx, _, vs, hvs, hmem⟩ := collect_mem _ _ r h v hv
  rw [processIndex_eq] at hvs
  simp only [Option.some.injEq] at hvs
  subst hvs
  cases h1 : genes[(getGeneIndices idx).1]? with
  | none => simp [h1] at hmem
  | some g1 =>
    cases h2 : genes[(getGeneIndices idx).2]? with
    | none => simp [h1, h2] at hmem
    | some g2 =>
      cases h3 : expressionData.lookup g1 with
      | none => simp [h1, h2, h3] at hmem
      | some e1 =>
        cases h4 : expressionData.lookup g2 with
        | none => simp [h1, h2, h3, h4] at hmem
        | some e2 =>
          simp only [h1, h2, h3, h4] at hmem
          split at hmem
          · cases hmem
          · rename_i hne
            have hveq := List.mem_singleton.mp hmem
            refine ⟨g1, g2, e1, e2, List.getElem?_mem h1, List.getElem?_mem h2, h3, h4,
              hveq, ?_⟩
            rw [hveq]
            intro hnone
            rw [hnone] at hne
            exact hne rfl

theorem processIndex_absent (corr : List (Fl K) → List (Fl K) → Fl K)
    (genes : List String) (expressionData : ExpressionMap K) (idx : Nat) (g1 g2 : String)
    (h1 : genes[(getGeneIndices idx).1]? = some g1)
    (h2 : genes[(getGeneIndices idx).2]? = some g2)
    (habs : expressionData.lookup g1 = none ∨ expressionData.lookup g2 = none) :
    processIndex corr genes expressionData (minSamples expressionData) idx = some [] := by
  rw [processIndex_eq, h1, h2]
  rcases habs with h | h
  · simp [h]
  · cases h3 : expressionData.lookup g1 <;> simp [h]

end ValueLemmas

/-! ## Lemmas on the sign and the range of the statistic -/

section SignLemmas

variable {K : Type} [LinearOrderedField K]

theorem calculateTTest_cases (sqrt erf : K → K) (x y : List (Fl K)) :
    calculateTTest sqrt erf x y = (some 0, some 1) ∨
    ∃ mx my a, mean x = some mx ∧ mean y = some my ∧
      fadd (fdiv (variance x) (ofLen x.length)) (fdiv (variance y) (ofLen y.length)) = some a ∧
      0 ≤ a ∧ sqrt a ≠ 0 ∧ sqrt 2 ≠ 0 ∧
      calculateTTest sqrt erf x y =
        (some ((mx - my) / sqrt a),
         some (2 * (1 - phi sqrt erf (abs ((mx - my) / sqrt a))))) := by
  unfold calculateTTest
  by_cases h1 : x.length < 2 ∨ y.length < 2
  · left; simp [h1]
  by_cases h2 : variance x = some 0 ∨ variance y = some 0
  · left; simp [h1, h2]
  simp only [h1, h2, if_false]
  cases ha : fadd (fdiv (variance x) (ofLen x.length)) (fdiv (variance y) (ofLen y.length)) with
  | none => left; simp [fsqrt, fdiv, fsub, isNaN]
  | some a =>
    by_cases hneg : a < 0
    · left; simp [fsqrt, hneg, fdiv, fsub, isNaN]
    by_cases hs : sqrt a = 0
    · left; simp [fsqrt_some, hneg, hs]
    cases hmx : mean x with
    | none => left; simp [fsqrt_some, hneg, hs, fsub, fdiv, isNaN]
    | some mx =>
      cases hmy : mean y with
      | none => left; simp [fsqrt_some, hneg, hs, fsub, fdiv, isNaN]
      | some my =>
        by_cases h20 : sqrt 2 = 0
        · left
          have h2lt : ¬ (2 : K) < 0 := by norm_num
          simp [fsqrt_some, hneg, hs, normalCDF, h2lt, h20, isNaN, ferf, fadd, fmul, fsub]
        · right
          have h2lt : ¬ (2 : K) < 0 := by norm_num
          refine ⟨mx, my, a, rfl, rfl, rfl, not_lt.mp hneg, hs, h20, ?_⟩
          simp [fsqrt_some, hneg, hs, normalCDF, h2lt, h20, isNaN, phi]

theorem ttest_sign (sqrt erf : K → K) (h0 : ∀ v, 0 ≤ sqrt v) (x y : List (Fl K))
    (hne : calculateTTest sqrt erf x y ≠ (some 0, some 1)) :
    ∃ t mx my, (calculateTTest sqrt erf x y).1 = some t ∧
      mean x = some mx ∧ mean y = some my ∧
      (t < 0 ↔ mx < my) ∧ (0 < t ↔ my < mx) ∧ (t = 0 ↔ mx = my) := by
  rcases calculateTTest_cases sqrt erf x y with h | ⟨mx, my, a, hmx, hmy, _, _, hs, _, hres⟩
  · exact absurd h hne
  · have hpos : 0 < sqrt a := lt_of_le_of_ne (h0 a) (Ne.symm hs)
    refine ⟨(mx - my) / sqrt a, mx, my, by rw [hres], hmx, hmy, ?_, ?_, ?_⟩
    · rw [div_lt_iff₀ hpos, zero_mul, sub_neg]
    · rw [lt_div_iff₀ hpos, zero_mul, sub_pos]
    · rw [div_eq_zero_iff, sub_eq_zero]
      constructor
      · rintro (h | h)
        · exact h
        · exact absurd h hs
      · exact Or.inl

theorem ttest_pvalue_unit (sqrt erf : K → K) (h0 : ∀ v, 0 ≤ sqrt v)
    (herf : ∀ z, 0 ≤ z → 0 ≤ erf z ∧ erf z ≤ 1) (x y : List (Fl K)) :
    ∃ p, (calculateTTest sqrt erf x y).2 = some p ∧ 0 ≤ p ∧ p ≤ 1 := by
  rcases calculateTTest_cases sqrt erf x y with h | ⟨mx, my, a, _, _, _, _, _, _, hres⟩
  · exact ⟨1, by rw [h], zero_le_one, le_refl 1⟩
  · refine ⟨_, by rw [hres], ?_, ?_⟩
    · have hz : 0 ≤ abs ((mx - my) / sqrt a) / sqrt 2 := div_nonneg (abs_nonneg _) (h0 2)
      have := herf _ hz
      unfold phi
      linarith [this.1, this.2]
    · have hz : 0 ≤ abs ((mx - my) / sqrt a) / sqrt 2 := div_nonneg (abs_nonneg _) (h0 2)
      have := herf _ hz
      unfold phi
      linarith [this.1, this.2]

theorem compareWithNull_nan (sqrt erf : K → K) :
    compareWithNull sqrt erf [none, some 1] [some 1, some 2] = (none, none) := by
  have hv1 : variance ([none, some 1] : List (Fl K)) = none := by
    simp [variance, sumSq, mean, fsum, fdiv, fsub, fmul, fadd]
  have hv2 : variance ([some 1, some 2] : List (Fl K)) = some (1 / 2) := by
    norm_num [variance, sumSq, mean, fsum, ofLen]
  have hne : ¬ ((1 : K) / 2 = 0) := by norm_num
  simp [compareWithNull, hv1, hv2, hne, fsqrt, fdiv, fadd, fsub, fmul, fabs, normalCDF, ferf, mean,
    fsum]

theorem calculateTTest_nan (sqrt erf : K → K) :
    calculateTTest sqrt erf [none, some 1] [some 1, some 2] = (some 0, some 1) := by
  rw [ttest_eq_clamp, compareWithNull_nan]
  rfl

theorem ttest_123_456_negative (sqrt erf : K → K) (h0 : ∀ v, 0 ≤ sqrt v)
    (hpos : ∀ v, 0 < v → sqrt v ≠ 0) :
    ∃ t, (calculateTTest sqrt erf [some 1, some 2, some 3] [some 4, some 5, some 6]).1 = some t ∧
      t < 0 := by
  have hv1 : sampleVar ([1, 2, 3] : List K) = 1 := by norm_num [sampleVar, avg]
  have hv2 : sampleVar ([4, 5, 6] : List K) = 1 := by norm_num [sampleVar, avg]
  have h := (ttest_core sqrt erf hpos ([1, 2, 3] : List K) ([4, 5, 6] : List K)
    (by simp) (by simp) (by rw [hv1]; norm_num) (by rw [hv2]; norm_num)).1
  refine ⟨welchT sqrt [1, 2, 3] [4, 5, 6], congrArg Prod.fst h, ?_⟩
  unfold welchT
  rw [hv1, hv2]
  have harg : (0 : K) < 1 / (([1, 2, 3] : List K).length : K) +
      1 / (([4, 5, 6] : List K).length : K) := by norm_num
  have hs : 0 < sqrt (1 / (([1, 2, 3] : List K).length : K) +
      1 / (([4, 5, 6] : List K).length : K)) :=
    lt_of_le_of_ne (h0 _) (Ne.symm (hpos _ harg))
  apply div_neg_of_neg_of_pos _ hs
  norm_num [avg]

end SignLemmas

theorem sqrtQ_nonneg (v : ℚ) : 0 ≤ sqrtQ v := Rat.sqrt_nonneg v

theorem erfQ_unit (z : ℚ) (hz : 0 ≤ z) : 0 ≤ erfQ z ∧ erfQ z ≤ 1 := by
  unfold erfQ
  rw [abs_of_nonneg hz]
  have h1 : (0 : ℚ) < 1 + z := by linarith
  exact ⟨div_nonneg hz h1.le, (div_le_one h1).mpr (by linarith)⟩


/-! ## Evaluation lemmas for the orchestration -/

theorem eval_spec_sequential :
    sequentialPass (correlation sqrtQ) ["g1", "g2", "g3"] exprSpec = some [some 1] := by
  rw [← getModuleCorrelations_eq_sequentialPass _ 1 (by decide)]
  exact eval_spec_order

theorem corr_spec_g1_g3 :
    correlation sqrtQ [some 1, some 2, some 3, some 4] [some 1, some 1, some 1, some 1]
      = none :=
  corr_spec_const_right _

theorem corr_spec_g2_g3 :
    correlation sqrtQ [some 2, some 4, some 6, some 8] [some 1, some 1, some 1, some 1]
      = none :=
  corr_spec_const_right _

theorem sqrtQ_sixteen : sqrtQ 16 = 4 := by
  have := sqrtQ_mul_self 4 (by norm_num)
  norm_num at this
  exact this

theorem corr_trunc_three :
    correlation sqrtQ [some 1, some 2, some 3] [some 2, some 4, some 6] = some 1 := by
  norm_num [correlation, sumProd, sumSq, mean, fsum, ofLen, sqrtQ_sixteen]

theorem minSamples_exprTrunc : minSamples exprTrunc = 3 := by decide

theorem range_one_ab : List.range (["a", "b"].length * (["a", "b"].length - 1) / 2) = [0] := by
  decide

theorem eval_trunc :
    getModuleCorrelations (correlation sqrtQ) 1 ["a", "b"] exprTrunc = some [some 1] := by
  rw [getModuleCorrelations_eq_sequentialPass _ 1 (by decide)]
  unfold sequentialPass
  rw [range_one_ab]
  have h0 : processIndex (correlation sqrtQ) ["a", "b"] exprTrunc
      (minSamples exprTrunc) 0 = some [some 1] := by
    rw [processIndex_eq, getGeneIndices_zero, minSamples_exprTrunc]
    simp [exprTrunc, List.lookup, corr_trunc_three]
  simp [collect, h0]

theorem moduleGenesOf_spec : moduleGenesOf "M1" moduleMapSpec = ["g1", "g2", "g3"] := by
  decide

theorem sampleGenes_oversize : sampleGenes (geneNames exprTwoGenes) 3 [1, 0] = none := by
  decide

section OrchestrationLemmas

variable {K : Type} [LinearOrderedField K]

theorem analyzeModule_returns (corr : List (Fl K) → List (Fl K) → Fl K) (sqrt erf : K → K)
    (W : Nat) (moduleName : String) (moduleMap : ModuleMap)
    (condition1Data condition2Data : ExpressionMap K) :
    ∃ t p, analyzeModule corr sqrt erf W moduleName moduleMap condition1Data condition2Data =
      some (ModuleStats.mk moduleName t p (moduleGenesOf moduleName moduleMap).length) := by
  obtain ⟨r1, h1⟩ := Option.isSome_iff_exists.mp
    (getModuleCorrelations_isSome corr W (moduleGenesOf moduleName moduleMap) condition1Data)
  obtain ⟨r2, h2⟩ := Option.isSome_iff_exists.mp
    (getModuleCorrelations_isSome corr W (moduleGenesOf moduleName moduleMap) condition2Data)
  exact ⟨(calculateTTest sqrt erf r1 r2).1, (calculateTTest sqrt erf r1 r2).2, by
    simp [analyzeModule, h1, h2]⟩

theorem createNullDistributions_none_of_oversize
    (corr : List (Fl K) → List (Fl K) → Fl K) (sqrt erf : K → K) (W : Nat)
    (moduleGenes : List String) (condition1Data condition2Data : ExpressionMap K)
    (draws1 draws2 : Nat → Nat → List Nat)
    (hW : 1 ≤ W) (hP : W ≤ 1000)
    (hlen : (draws1 0 0).length = (geneNames condition1Data).length)
    (hsz : (geneNames condition1Data).length < moduleGenes.length) :
    createNullDistributions corr sqrt erf W moduleGenes condition1Data condition2Data
      draws1 draws2 = none := by
  obtain ⟨r1, h1⟩ := Option.isSome_iff_exists.mp
    (getModuleCorrelations_isSome corr W moduleGenes condition1Data)
  obtain ⟨r2, h2⟩ := Option.isSome_iff_exists.mp
    (getModuleCorrelations_isSome corr W moduleGenes condition2Data)
  have h3 := nullTrials_none_of_oversize corr W (geneNames condition1Data)
    (moduleGenes.length : Int) condition1Data 1000 draws1 hW hP hlen (by exact_mod_cast hsz)
  simp [createNullDistributions, h1, h2, h3]

theorem createNullDistributions_isSome
    (corr : List (Fl K) → List (Fl K) → Fl K) (sqrt erf : K → K) (W : Nat)
    (moduleGenes : List String) (condition1Data condition2Data : ExpressionMap K)
    (draws1 draws2 : Nat → Nat → List Nat)
    (hs1 : moduleGenes.length ≤ (geneNames condition1Data).length)
    (hs2 : moduleGenes.length ≤ (geneNames condition2Data).length)
    (hd1 : ∀ w i, (draws1 w i).Perm (List.range (geneNames condition1Data).length))
    (hd2 : ∀ w i, (draws2 w i).Perm (List.range (geneNames condition2Data).length)) :
    (createNullDistributions corr sqrt erf W moduleGenes condition1Data condition2Data
      draws1 draws2).isSome := by
  obtain ⟨r1, h1⟩ := Option.isSome_iff_exists.mp
    (getModuleCorrelations_isSome corr W moduleGenes condition1Data)
  obtain ⟨r2, h2⟩ := Option.isSome_iff_exists.mp
    (getModuleCorrelations_isSome corr W moduleGenes condition2Data)
  obtain ⟨t1, h3⟩ := Option.isSome_iff_exists.mp
    (nullTrials_isSome corr W (geneNames condition1Data) (moduleGenes.length : Int)
      condition1Data 1000 draws1 (Int.natCast_nonneg _) (by exact_mod_cast hs1) hd1)
  obtain ⟨t2, h4⟩ := Option.isSome_iff_exists.mp
    (nullTrials_isSome corr W (geneNames condition2Data) (moduleGenes.length : Int)
      condition2Data 1000 draws2 (Int.natCast_nonneg _) (by exact_mod_cast hs2) hd2)
  simp [createNullDistributions, h1, h2, h3, h4]

end OrchestrationLemmas

theorem eval_null_fails :
    analyzeModuleNullDistribution (correlation sqrtQ) sqrtQ erfQ 1 "M1" moduleMapSpec
      exprTwoGenes exprSpec (fun _ _ => [1, 0]) (fun _ _ => [2, 0, 1]) = none := by
  have h := createNullDistributions_none_of_oversize (correlation sqrtQ) sqrtQ erfQ 1
    (moduleGenesOf "M1" moduleMapSpec) exprTwoGenes exprSpec (fun _ _ => [1, 0])
    (fun _ _ => [2, 0, 1]) (by decide) (by decide) (by decide) (by decide)
  simp only [analyzeModuleNullDistribution, h, Option.map]


/-! ## The claims on the orchestration, the engine and the sampler -/

/-- C11 as stated fails: the module `M1` has three genes and the first
expression map only two (`g3` is absent), so `sampleGenes` is asked for three
of two genes, its index runs out of range and `analyzeModuleNullDistribution`
returns no row. -/
theorem analyzeModuleNullDistribution_fails_on_oversize_module :
    analyzeModuleNullDistribution (correlation sqrtQ) sqrtQ erfQ 1 "M1" moduleMapSpec
      exprTwoGenes exprSpec (fun _ _ => [1, 0]) (fun _ _ => [2, 0, 1]) = none ∧
    (moduleGenesOf "M1" moduleMapSpec).length = 3 ∧
    (geneNames exprTwoGenes).length = 2 :=
  ⟨eval_null_fails, by decide, by decide⟩

/-- C11, amended: `analyzeModule` returns a row for every module map, label and
pair of expression maps, whether or not the genes of the module are in the
maps; `analyzeModuleNullDistribution` returns a row, with the label and the
number of genes of the module, whenever the module has no more genes than
either expression map (the random draws being permutations of the gene
universes); and it fails when the module has more genes than the first
expression map and the worker count is between `1` and `1000`. -/
theorem analysis_returns_row_when_module_fits {K : Type} [LinearOrderedField K]
    (corr : List (Fl K) → List (Fl K) → Fl K) (sqrt erf : K → K)
    (W : Nat) (moduleName : String) (moduleMap : ModuleMap)
    (condition1Data condition2Data : ExpressionMap K)
    (draws1 draws2 : Nat → Nat → List Nat) :
    (∃ t p, analyzeModule corr sqrt erf W moduleName moduleMap condition1Data condition2Data =
      some (ModuleStats.mk moduleName t p (moduleGenesOf moduleName moduleMap).length)) ∧
    ((moduleGenesOf moduleName moduleMap).length ≤ (geneNames condition1Data).length →
      (moduleGenesOf moduleName moduleMap).length ≤ (geneNames condition2Data).length →
      (∀ w i, (draws1 w i).Perm (List.range (geneNames condition1Data).length)) →
      (∀ w i, (draws2 w i).Perm (List.range (geneNames condition2Data).length)) →
      ∃ t1 p1 t2 p2, analyzeModuleNullDistribution corr sqrt erf W moduleName moduleMap
          condition1Data condition2Data draws1 draws2 =
        some (NullDistributionStats.mk moduleName (moduleGenesOf moduleName moduleMap).length
          t1 p1 t2 p2)) ∧
    (1 ≤ W → W ≤ 1000 → (draws1 0 0).length = (geneNames condition1Data).length →
      (geneNames condition1Data).length < (moduleGenesOf moduleName moduleMap).length →
      analyzeModuleNullDistribution corr sqrt erf W moduleName moduleMap
        condition1Data condition2Data draws1 draws2 = none) := by
  refine ⟨analyzeModule_returns corr sqrt erf W moduleName moduleMap condition1Data
    condition2Data, fun hs1 hs2 hd1 hd2 => ?_, fun hW hP hlen hsz => ?_⟩
  · obtain ⟨r, hr⟩ := Option.isSome_iff_exists.mp
      (createNullDistributions_isSome corr sqrt erf W (moduleGenesOf moduleName moduleMap)
        condition1Data condition2Data draws1 draws2 hs1 hs2 hd1 hd2)
    refine ⟨r.1.1, r.1.2, r.2.1, r.2.2, ?_⟩
    simp only [analyzeModuleNullDistribution, hr, Option.map]
  · have h := createNullDistributions_none_of_oversize corr sqrt erf W
      (moduleGenesOf moduleName moduleMap) condition1Data condition2Data draws1 draws2
      hW hP hlen hsz
    simp only [analyzeModuleNullDistribution, h, Option.map]

/-- Witness of C11, amended: the module `M2` has the single gene `g3`, which is
absent from the first expression map of two genes; a row is returned. -/
theorem analysis_returns_row_when_module_fits_witness :
    ∃ t1 p1 t2 p2, analyzeModuleNullDistribution (correlation sqrtQ) sqrtQ erfQ 1 "M2"
        moduleMapTwo exprTwoGenes exprSpec (fun _ _ => [1, 0]) (fun _ _ => [2, 0, 1]) =
      some (NullDistributionStats.mk "M2" (moduleGenesOf "M2" moduleMapTwo).length
        t1 p1 t2 p2) :=
  (analysis_returns_row_when_module_fits (correlation sqrtQ) sqrtQ erfQ 1 "M2" moduleMapTwo
    exprTwoGenes exprSpec (fun _ _ => [1, 0]) (fun _ _ => [2, 0, 1])).2.1
    (by decide) (by decide)
    (fun _ _ => (by decide : [1, 0].Perm (List.range (geneNames exprTwoGenes).length)))
    (fun _ _ => (by decide : [2, 0, 1].Perm (List.range (geneNames exprSpec).length)))

/-- C12: for every gene list and every expression map, `getModuleCorrelations`
returns a result (no index or slice bound is out of range); an index whose
pair has a gene absent from the map sends no value; and every value of the
result is the correlation of two genes of the list that are both present. -/
theorem getModuleCorrelations_never_fails {K : Type}
    (corr : List (Fl K) → List (Fl K) → Fl K) (W : Nat)
    (genes : List String) (expressionData : ExpressionMap K) :
    (getModuleCorrelations corr W genes expressionData).isSome ∧
    (∀ idx g1 g2, genes[(getGeneIndices idx).1]? = some g1 →
      genes[(getGeneIndices idx).2]? = some g2 →
      (expressionData.lookup g1 = none ∨ expressionData.lookup g2 = none) →
      processIndex corr genes expressionData (minSamples expressionData) idx = some []) ∧
    (∀ r, getModuleCorrelations corr W genes expressionData = some r → ∀ v ∈ r,
      ∃ g1 g2 e1 e2, g1 ∈ genes ∧ g2 ∈ genes ∧
        expressionData.lookup g1 = some e1 ∧ expressionData.lookup g2 = some e2 ∧
        v = corr (e1.take (minSamples expressionData).toNat)
          (e2.take (minSamples expressionData).toNat) ∧ v ≠ none) :=
  ⟨getModuleCorrelations_isSome corr W genes expressionData,
    fun idx g1 g2 h1 h2 habs => processIndex_absent corr genes expressionData idx g1 g2 h1 h2 habs,
    fun r h v hv => getModuleCorrelations_mem corr W genes expressionData r h v hv⟩

/-- C13: for the expression map of the spec's example and the gene list
`g1, g2, g3`, `getModuleCorrelations` returns exactly `[1]` for every worker
count `W ≥ 1`; the correlation of `g1` and `g2` is `1`, and the correlations of
`g1` with `g3` and of `g2` with `g3` are NaN. -/
theorem getModuleCorrelations_spec_example (W : Nat) (hW : 1 ≤ W) :
    getModuleCorrelations (correlation sqrtQ) W ["g1", "g2", "g3"] exprSpec = some [some 1] ∧
    correlation sqrtQ [some 1, some 2, some 3, some 4] [some 2, some 4, some 6, some 8]
      = some 1 ∧
    correlation sqrtQ [some 1, some 2, some 3, some 4] [some 1, some 1, some 1, some 1]
      = none ∧
    correlation sqrtQ [some 2, some 4, some 6, some 8] [some 1, some 1, some 1, some 1]
      = none := by
  refine ⟨?_, corr_spec_g1_g2, corr_spec_g1_g3, corr_spec_g2_g3⟩
  rw [getModuleCorrelations_eq_sequentialPass _ W hW]
  exact eval_spec_sequential

/-- Witness of C13: four workers. -/
theorem getModuleCorrelations_spec_example_witness :
    getModuleCorrelations (correlation sqrtQ) 4 ["g1", "g2", "g3"] exprSpec = some [some 1] ∧
    correlation sqrtQ [some 1, some 2, some 3, some 4] [some 2, some 4, some 6, some 8]
      = some 1 ∧
    correlation sqrtQ [some 1, some 2, some 3, some 4] [some 1, some 1, some 1, some 1]
      = none ∧
    correlation sqrtQ [some 2, some 4, some 6, some 8] [some 1, some 1, some 1, some 1]
      = none :=
  getModuleCorrelations_spec_example 4 (by decide)

/-- C14: for every expression map and every worker count `W ≥ 1`,
`getModuleCorrelations` returns the empty vector when the gene list is empty
or has exactly one element. -/
theorem getModuleCorrelations_small_list {K : Type}
    (corr : List (Fl K) → List (Fl K) → Fl K) (W : Nat) (hW : 1 ≤ W)
    (genes : List String) (hlen : genes.length ≤ 1) (expressionData : ExpressionMap K) :
    getModuleCorrelations corr W genes expressionData = some [] := by
  rw [getModuleCorrelations_eq_sequentialPass corr W hW]
  unfold sequentialPass
  have h0 : genes.length * (genes.length - 1) / 2 = 0 := by
    rcases Nat.le_one_iff_eq_zero_or_eq_one.mp hlen with h | h <;> simp [h]
  rw [h0]
  rfl

/-- Witness of C14: the empty list and a single gene, with four workers. -/
theorem getModuleCorrelations_small_list_witness :
    getModuleCorrelations (correlation sqrtQ) 4 [] exprSpec = some [] ∧
    getModuleCorrelations (correlation sqrtQ) 4 ["g1"] exprSpec = some [] :=
  ⟨getModuleCorrelations_small_list (correlation sqrtQ) 4 (by decide) [] (by decide) exprSpec,
   getModuleCorrelations_small_list (correlation sqrtQ) 4 (by decide) ["g1"] (by decide)
    exprSpec⟩

/-- C15: every value returned by `getModuleCorrelations` is the correlation of the
first `m` samples of two genes of the list, where `m` is the minimum length of
a sample vector over all entries of the expression map: no entry is shorter
than `m` and some entry has exactly `m` samples. -/
theorem correlations_use_global_minimum {K : Type}
    (corr : List (Fl K) → List (Fl K) → Fl K) (W : Nat)
    (genes : List String) (expressionData : ExpressionMap K) (r : List (Fl K))
    (h : getModuleCorrelations corr W genes expressionData = some r) (v : Fl K) (hv : v ∈ r) :
    ∃ g1 g2 e1 e2, g1 ∈ genes ∧ g2 ∈ genes ∧
      expressionData.lookup g1 = some e1 ∧ expressionData.lookup g2 = some e2 ∧
      v = corr (e1.take (minSamples expressionData).toNat)
        (e2.take (minSamples expressionData).toNat) ∧
      (∀ entry ∈ expressionData, (minSamples expressionData).toNat ≤ entry.2.length) ∧
      (∃ entry ∈ expressionData, entry.2.length = (minSamples expressionData).toNat) := by
  obtain ⟨g1, g2, e1, e2, hg1, hg2, h1, h2, hveq, _⟩ :=
    getModuleCorrelations_mem corr W genes expressionData r h v hv
  have hne : expressionData ≠ [] := by
    intro hnil
    rw [hnil] at h1
    cases h1
  refine ⟨g1, g2, e1, e2, hg1, hg2, h1, h2, hveq, ?_, ?_⟩
  · intro entry hentry
    have := minSamples_bounds expressionData entry hentry
    omega
  · obtain ⟨entry, hentry, hmin⟩ := minSamples_attained expressionData hne
    exact ⟨entry, hentry, by omega⟩

/-- Witness of C15: genes `a` and `b` have four samples, gene `c`, not in the list,
has three; the one correlation returned is that of the first three samples. -/
theorem correlations_use_global_minimum_witness :
    ∃ g1 g2 e1 e2, g1 ∈ ["a", "b"] ∧ g2 ∈ ["a", "b"] ∧
      exprTrunc.lookup g1 = some e1 ∧ exprTrunc.lookup g2 = some e2 ∧
      some (1 : ℚ) = correlation sqrtQ (e1.take (minSamples exprTrunc).toNat)
        (e2.take (minSamples exprTrunc).toNat) ∧
      (∀ entry ∈ exprTrunc, (minSamples exprTrunc).toNat ≤ entry.2.length) ∧
      (∃ entry ∈ exprTrunc, entry.2.length = (minSamples exprTrunc).toNat) :=
  correlations_use_global_minimum (correlation sqrtQ) 1 ["a", "b"] exprTrunc [some 1]
    eval_trunc (some 1) (List.mem_singleton.mpr rfl)

/-- C16: whenever `calculateTTest` does not return the sentinel `(0, 1)`, its
statistic is a number whose sign is the sign of `meanA - meanB` (negative
exactly when `meanA < meanB`, positive exactly when `meanB < meanA`, zero
exactly when the means are equal); and the statistic of `[1,2,3]` against
`[4,5,6]` is negative. The square root is assumed non-negative, and non-zero
on positive numbers. -/
theorem calculateTTest_sign {K : Type} [LinearOrderedField K] (sqrt erf : K → K)
    (h0 : ∀ v, 0 ≤ sqrt v) (hpos : ∀ v, 0 < v → sqrt v ≠ 0) :
    (∀ x y : List (Fl K), calculateTTest sqrt erf x y ≠ (some 0, some 1) →
      ∃ t mx my, (calculateTTest sqrt erf x y).1 = some t ∧
        mean x = some mx ∧ mean y = some my ∧
        (t < 0 ↔ mx < my) ∧ (0 < t ↔ my < mx) ∧ (t = 0 ↔ mx = my)) ∧
    (∃ t, (calculateTTest sqrt erf [some 1, some 2, some 3] [some 4, some 5, some 6]).1
        = some t ∧ t < 0) :=
  ⟨fun x y hne => ttest_sign sqrt erf h0 x y hne, ttest_123_456_negative sqrt erf h0 hpos⟩

/-- Witness of C16: the rational stand-ins for the square root and the error
function. -/
theorem calculateTTest_sign_witness :
    (∀ x y : List (Fl ℚ), calculateTTest sqrtQ erfQ x y ≠ (some 0, some 1) →
      ∃ t mx my, (calculateTTest sqrtQ erfQ x y).1 = some t ∧
        mean x = some mx ∧ mean y = some my ∧
        (t < 0 ↔ mx < my) ∧ (0 < t ↔ my < mx) ∧ (t = 0 ↔ mx = my)) ∧
    (∃ t, (calculateTTest sqrtQ erfQ [some 1, some 2, some 3] [some 4, some 5, some 6]).1
        = some t ∧ t < 0) :=
  calculateTTest_sign sqrtQ erfQ sqrtQ_nonneg sqrtQ_ne_zero

/-- C17 (defect of the code): for all samples the p-value of `calculateTTest` and of
`calculateTStatistic` is a number of `[0, 1]` (for a non-negative square root
and an error function with values in `[0, 1]` on non-negative numbers), but
`compareWithNull`, which lacks their NaN guard, returns `(NaN, NaN)` for the
samples `[NaN, 1]` and `[1, 2]`. -/
theorem pvalue_range_and_compareWithNull_nan {K : Type} [LinearOrderedField K]
    (sqrt erf : K → K) (h0 : ∀ v, 0 ≤ sqrt v)
    (herf : ∀ z, 0 ≤ z → 0 ≤ erf z ∧ erf z ≤ 1) :
    (∀ x y : List (Fl K), ∃ p, (calculateTTest sqrt erf x y).2 = some p ∧ 0 ≤ p ∧ p ≤ 1) ∧
    (∀ x y : List (Fl K), ∃ p, (calculateTStatistic sqrt erf x y).2 = some p ∧ 0 ≤ p ∧ p ≤ 1) ∧
    compareWithNull sqrt erf [none, some 1] [some 1, some 2] = (none, none) := by
  refine ⟨fun x y => ttest_pvalue_unit sqrt erf h0 herf x y, fun x y => ?_,
    compareWithNull_nan sqrt erf⟩
  rw [tstat_eq_ttest_abs]
  exact ttest_pvalue_unit sqrt erf h0 herf _ _

/-- Witness of C17: the rational stand-ins for the square root and the error
function. -/
theorem pvalue_range_and_compareWithNull_nan_witness :
    (∀ x y : List (Fl ℚ), ∃ p, (calculateTTest sqrtQ erfQ x y).2 = some p ∧ 0 ≤ p ∧ p ≤ 1) ∧
    (∀ x y : List (Fl ℚ),
      ∃ p, (calculateTStatistic sqrtQ erfQ x y).2 = some p ∧ 0 ≤ p ∧ p ≤ 1) ∧
    compareWithNull sqrtQ erfQ [none, some 1] [some 1, some 2] = (none, none) :=
  pvalue_range_and_compareWithNull_nan sqrtQ erfQ sqrtQ_nonneg erfQ_unit

/-- C18: for a universe of pairwise-distinct genes, a size between `0` and the size
of the universe and a permutation `indices` of the index range as the random
draw, `sampleGenes` returns exactly `size` pairwise-distinct genes of the
universe, namely the first `size` entries of the permuted universe; when
`size` is the size of the universe the result is a permutation of it. -/
theorem sampleGenes_distinct_sample (genes : List String) (size : Int) (indices : List Nat)
    (hnodup : genes.Nodup) (h0 : 0 ≤ size) (hsz : size ≤ (genes.length : Int))
    (hperm : indices.Perm (List.range genes.length)) :
    ∃ s : List String,
      sampleGenes genes size indices = some s ∧
      (s.length : Int) = size ∧
      s.Nodup ∧
      (∀ g ∈ s, g ∈ genes) ∧
      s = (indices.map fun k => genes.getD k "").take size.toNat ∧
      (indices.map fun k => genes.getD k "").Perm genes ∧
      (size = (genes.length : Int) → s.Perm genes) :=
  sampleGenes_core genes size indices hnodup h0 hsz hperm

/-- Witness of C18: two of the three genes `a, b, c` with the draw `2, 0, 1`. -/
theorem sampleGenes_distinct_sample_witness :
    ∃ s : List String,
      sampleGenes ["a", "b", "c"] 2 [2, 0, 1] = some s ∧
      (s.length : Int) = 2 ∧
      s.Nodup ∧
      (∀ g ∈ s, g ∈ ["a", "b", "c"]) ∧
      s = ([2, 0, 1].map fun k => ["a", "b", "c"].getD k "").take (2 : Int).toNat ∧
      ([2, 0, 1].map fun k => ["a", "b", "c"].getD k "").Perm ["a", "b", "c"] ∧
      ((2 : Int) = ((["a", "b", "c"].length : Nat) : Int) → s.Perm ["a", "b", "c"]) :=
  sampleGenes_distinct_sample ["a", "b", "c"] 2 [2, 0, 1] (by decide) (by decide) (by decide)
    (by decide)

/-- C19: for a permutation `indices` of the index range as the random draw,
`sampleGenes` fails (a runtime failure of `make` or of an index out of range)
if and only if `size < 0` or `size` exceeds the number of genes; for every
size from `0` to the number of genes it returns a sample. -/
theorem sampleGenes_fails_iff (genes : List String) (size : Int) (indices : List Nat)
    (hperm : indices.Perm (List.range genes.length)) :
    (sampleGenes genes size indices = none ↔ size < 0 ∨ (genes.length : Int) < size) ∧
    (0 ≤ size → size ≤ (genes.length : Int) →
      ∃ s, sampleGenes genes size indices = some s) := by
  have hiff := sampleGenes_none_iff genes size indices hperm
  refine ⟨hiff, fun h0 hsz => ?_⟩
  cases hs : sampleGenes genes size indices with
  | some s => exact ⟨s, rfl⟩
  | none =>
    rcases hiff.mp hs with h | h <;> omega

/-- Witness of C19: four of three genes cannot be sampled. -/
theorem sampleGenes_fails_iff_witness :
    (sampleGenes ["a", "b", "c"] 4 [2, 0, 1] = none ↔
      (4 : Int) < 0 ∨ ((["a", "b", "c"].length : Nat) : Int) < 4) ∧
    ((0 : Int) ≤ 4 → (4 : Int) ≤ ((["a", "b", "c"].length : Nat) : Int) →
      ∃ s, sampleGenes ["a", "b", "c"] 4 [2, 0, 1] = some s) :=
  sampleGenes_fails_iff ["a", "b", "c"] 4 [2, 0, 1] (by decide)

/-- C20: for every worker count `W ≥ 1` and requested permutation count `P`, the
worker pool of one condition runs exactly `W * (P / W)` trials when every
sample can be drawn; this is at most `P`, more than `P - W`, and equal to `P`
exactly when `W` divides `P`; and `createNullDistributions` runs the pool of
each condition with `P = 1000`. -/
theorem null_trial_count {K : Type} [LinearOrderedField K]
    (corr : List (Fl K) → List (Fl K) → Fl K) (sqrt erf : K → K) (W P : Nat) (hW : 1 ≤ W)
    (genes : List String) (moduleSize : Int) (conditionData : ExpressionMap K)
    (draws : Nat → Nat → List Nat)
    (h0 : 0 ≤ moduleSize) (hsz : moduleSize ≤ (genes.length : Int))
    (hdraws : ∀ w i, (draws w i).Perm (List.range genes.length)) :
    (∃ rs, nullTrials corr W genes moduleSize conditionData P draws = some rs ∧
      rs.length = W * (P / W)) ∧
    W * (P / W) ≤ P ∧ P < W * (P / W) + W ∧ (W * (P / W) = P ↔ W ∣ P) ∧
    (∀ (moduleGenes : List String) (c1 c2 : ExpressionMap K) (d1 d2 : Nat → Nat → List Nat),
      createNullDistributions corr sqrt erf W moduleGenes c1 c2 d1 d2 =
        (getModuleCorrelations corr W moduleGenes c1).bind fun a1 =>
          (getModuleCorrelations corr W moduleGenes c2).bind fun a2 =>
            (nullTrials corr W (geneNames c1) (moduleGenes.length : Int) c1 1000 d1).bind
              fun r1 =>
                (nullTrials corr W (geneNames c2) (moduleGenes.length : Int) c2 1000 d2).bind
                  fun r2 =>
                    some (compareWithNull sqrt erf a1 r1.flatten,
                      compareWithNull sqrt erf a2 r2.flatten)) := by
  obtain ⟨rs, hrs⟩ := Option.isSome_iff_exists.mp
    (nullTrials_isSome corr W genes moduleSize conditionData P draws h0 hsz hdraws)
  obtain ⟨h1, h2, h3⟩ := trial_count_arith W P hW
  exact ⟨⟨rs, hrs, nullTrials_length corr W genes moduleSize conditionData P draws rs hrs⟩,
    h1, h2, h3, fun _ _ _ _ _ => rfl⟩

/-- Witness of C20: three workers and ten requested permutations run nine trials
on the three genes of the spec's example. -/
theorem null_trial_count_witness :
    (∃ rs, nullTrials (correlation sqrtQ) 3 (geneNames exprSpec) 2 exprSpec 10
        (fun _ _ => [2, 0, 1]) = some rs ∧ rs.length = 3 * (10 / 3)) ∧
    3 * (10 / 3) ≤ 10 ∧ 10 < 3 * (10 / 3) + 3 ∧ (3 * (10 / 3) = 10 ↔ 3 ∣ 10) ∧
    (∀ (moduleGenes : List String) (c1 c2 : ExpressionMap ℚ) (d1 d2 : Nat → Nat → List Nat),
      createNullDistributions (correlation sqrtQ) sqrtQ erfQ 3 moduleGenes c1 c2 d1 d2 =
        (getModuleCorrelations (correlation sqrtQ) 3 moduleGenes c1).bind fun a1 =>
          (getModuleCorrelations (correlation sqrtQ) 3 moduleGenes c2).bind fun a2 =>
            (nullTrials (correlation sqrtQ) 3 (geneNames c1) (moduleGenes.length : Int) c1
              1000 d1).bind fun r1 =>
                (nullTrials (correlation sqrtQ) 3 (geneNames c2) (moduleGenes.length : Int) c2
                  1000 d2).bind fun r2 =>
                    some (compareWithNull sqrtQ erfQ a1 r1.flatten,
                      compareWithNull sqrtQ erfQ a2 r2.flatten)) :=
  null_trial_count (correlation sqrtQ) sqrtQ erfQ 3 10 (by decide) (geneNames exprSpec) 2
    exprSpec (fun _ _ => [2, 0, 1]) (by decide) (by decide)
    (fun _ _ => (by decide : [2, 0, 1].Perm (List.range (geneNames exprSpec).length)))


/-! ## Lemmas on NaN, symmetry and reordering of the statistic -/

section SymmetryLemmas

variable {K : Type} [LinearOrderedField K]

theorem ttest_not_nan (sqrt erf : K → K) (x y : List (Fl K)) :
    (calculateTTest sqrt erf x y).1 ≠ none ∧ (calculateTTest sqrt erf x y).2 ≠ none := by
  rcases calculateTTest_cases sqrt erf x y with h | ⟨mx, my, a, _, _, _, _, _, _, hres⟩
  · rw [h]
    exact ⟨by simp, by simp⟩
  · rw [hres]
    exact ⟨by simp, by simp⟩

theorem fsum_none_of_mem (x : List (Fl K)) (h : none ∈ x) : fsum x = none := by
  cases hs : fsum x with
  | none => rfl
  | some s =>
    unfold fsum at hs
    exact absurd rfl (foldl_fadd_eq_some x (some 0) s hs none h)

theorem mean_none_of_mem (x : List (Fl K)) (h : none ∈ x) : mean x = none := by
  unfold mean
  rw [fsum_none_of_mem x h]
  rfl

theorem ttest_of_nan_mem (sqrt erf : K → K) (x y : List (Fl K))
    (h : none ∈ x ∨ none ∈ y) : calculateTTest sqrt erf x y = (some 0, some 1) := by
  rcases calculateTTest_cases sqrt erf x y with h1 | ⟨mx, my, a, hmx, hmy, _⟩
  · exact h1
  · rcases h with h | h
    · rw [mean_none_of_mem x h] at hmx
      cases hmx
    · rw [mean_none_of_mem y h] at hmy
      cases hmy

theorem tstat_nan (sqrt erf : K → K) :
    calculateTStatistic sqrt erf [none, some 1] [some 1, some 2] = (some 0, some 1) := by
  rw [tstat_eq_ttest_abs]
  apply ttest_of_nan_mem
  left
  simp [fabs]

theorem ttest_self (sqrt erf : K → K) (herf : erf 0 = 0) (x : List (Fl K)) :
    calculateTTest sqrt erf x x = (some 0, some 1) := by
  rcases calculateTTest_cases sqrt erf x x with h | ⟨mx, my, a, hmx, hmy, _, _, _, _, hres⟩
  · exact h
  · rw [hmx] at hmy
    have hm : mx = my := Option.some.inj hmy
    rw [hres, hm]
    simp [phi, herf]
    norm_num

theorem fadd_comm (a b : Fl K) : fadd a b = fadd b a := by
  cases a <;> cases b <;> simp [fadd, add_comm]

theorem fadd_right_comm (z a b : Fl K) : fadd (fadd z a) b = fadd (fadd z b) a := by
  cases z <;> cases a <;> cases b <;> simp [fadd, add_right_comm]

theorem fdiv_fsub_swap (a b s : Fl K) :
    fdiv (fsub b a) s = (fdiv (fsub a b) s).map fun t => -t := by
  cases a with
  | none => cases b <;> rfl
  | some a =>
    cases b with
    | none => rfl
    | some b =>
      cases s with
      | none => rfl
      | some s =>
        by_cases hs : s = 0
        · simp [hs]
        · simp [hs]
          ring

theorem fabs_map_neg (o : Fl K) : fabs (o.map fun t => -t) = fabs o := by
  cases o with
  | none => rfl
  | some t => simp [fabs]

theorem ttest_swap (sqrt erf : K → K) (x y : List (Fl K)) :
    calculateTTest sqrt erf y x =
      ((calculateTTest sqrt erf x y).1.map (fun t => -t), (calculateTTest sqrt erf x y).2) := by
  unfold calculateTTest
  by_cases h1 : x.length < 2 ∨ y.length < 2
  · have h1' : y.length < 2 ∨ x.length < 2 := h1.symm
    simp [h1, h1']
  have h1' : ¬ (y.length < 2 ∨ x.length < 2) := fun h => h1 h.symm
  by_cases h2 : variance x = some 0 ∨ variance y = some 0
  · have h2' : variance y = some 0 ∨ variance x = some 0 := h2.symm
    simp [h1, h1', h2, h2']
  have h2' : ¬ (variance y = some 0 ∨ variance x = some 0) := fun h => h2 h.symm
  simp only [h1, h1', h2, h2', if_false]
  rw [fadd_comm (fdiv (variance y) (ofLen y.length)) (fdiv (variance x) (ofLen x.length))]
  by_cases h3 : fsqrt sqrt (fadd (fdiv (variance x) (ofLen x.length))
      (fdiv (variance y) (ofLen y.length))) = some 0
  · simp [h3]
  simp only [h3, if_false]
  rw [fdiv_fsub_swap (mean x) (mean y), fabs_map_neg]
  cases fdiv (fsub (mean x) (mean y)) (fsqrt sqrt (fadd (fdiv (variance x) (ofLen x.length))
      (fdiv (variance y) (ofLen y.length)))) with
  | none => simp [isNaN]
  | some t =>
    generalize fmul (some 2) (fsub (some 1) (normalCDF sqrt erf (fabs (some t)))) = P
    cases P <;> simp [isNaN]

theorem fsum_perm (x x' : List (Fl K)) (h : x.Perm x') : fsum x = fsum x' := by
  unfold fsum
  exact List.Perm.foldl_eq' h (fun a _ b _ z => fadd_right_comm z a b) (some 0)

theorem mean_perm (x x' : List (Fl K)) (h : x.Perm x') : mean x = mean x' := by
  unfold mean
  rw [fsum_perm x x' h, h.length_eq]

theorem variance_perm (x x' : List (Fl K)) (h : x.Perm x') : variance x = variance x' := by
  unfold variance sumSq
  rw [mean_perm x x' h, h.length_eq]
  congr 1
  exact fsum_perm _ _ (h.map _)

theorem ttest_perm (sqrt erf : K → K) (x x' y y' : List (Fl K))
    (hx : x.Perm x') (hy : y.Perm y') :
    calculateTTest sqrt erf x' y' = calculateTTest sqrt erf x y := by
  unfold calculateTTest
  rw [mean_perm x x' hx, mean_perm y y' hy, variance_perm x x' hx, variance_perm y y' hy,
    hx.length_eq, hy.length_eq]

end SymmetryLemmas

theorem erfQ_zero : erfQ 0 = 0 := by
  simp [erfQ]

/-! ## Lemmas on modules with fewer than two genes -/

theorem getModuleCorrelations_of_short {K : Type}
    (corr : List (Fl K) → List (Fl K) → Fl K) (W : Nat) (hW : 1 ≤ W) (genes : List String) (hlen : genes.length < 2)
    (expressionData : ExpressionMap K) :
    getModuleCorrelations corr W genes expressionData = some [] := by
  rw [getModuleCorrelations_eq_sequentialPass corr W hW]
  unfold sequentialPass
  have h0 : genes.length * (genes.length - 1) / 2 = 0 := by
    have : genes.length = 0 ∨ genes.length = 1 := by omega
    rcases this with h | h <;> simp [h]
  rw [h0]
  rfl

section SmallModule

variable {K : Type} [LinearOrderedField K]

theorem analyzeModule_of_short (corr : List (Fl K) → List (Fl K) → Fl K) (sqrt erf : K → K)
    (W : Nat) (hW : 1 ≤ W) (moduleName : String) (moduleMap : ModuleMap)
    (condition1Data condition2Data : ExpressionMap K)
    (hlen : (moduleMap.filter fun e => e.2 == moduleName).length < 2) :
    analyzeModule corr sqrt erf W moduleName moduleMap condition1Data condition2Data =
      some (ModuleStats.mk moduleName (some 0) (some 1)
        (moduleMap.filter fun e => e.2 == moduleName).length) := by
  have hg : (moduleGenesOf moduleName moduleMap).length =
      (moduleMap.filter fun e => e.2 == moduleName).length := by
    simp [moduleGenesOf]
  have h1 := getModuleCorrelations_of_short corr W hW (moduleGenesOf moduleName moduleMap)
    (by rw [hg]; exact hlen) condition1Data
  have h2 := getModuleCorrelations_of_short corr W hW (moduleGenesOf moduleName moduleMap)
    (by rw [hg]; exact hlen) condition2Data
  simp [analyzeModule, h1, h2, hg, calculateTTest]

end SmallModule


/-! ## Lemmas on module discovery -/

theorem uniqueModules_fold_mem (l : ModuleMap) (acc : List String) (label : String) :
    label ∈ l.foldl (fun modules e => if e.2 ∈ modules then modules else modules ++ [e.2]) acc ↔
      label ∈ acc ∨ ∃ gene, (gene, label) ∈ l := by
  induction l generalizing acc with
  | nil => simp
  | cons a l ih =>
    rw [List.foldl_cons, ih]
    constructor
    · rintro (h | ⟨gene, h⟩)
      · split at h
        · exact Or.inl h
        · rcases List.mem_append.mp h with h | h
          · exact Or.inl h
          · right
            refine ⟨a.1, ?_⟩
            rw [List.mem_singleton.mp h]
            exact List.mem_cons_self _ _
      · exact Or.inr ⟨gene, List.mem_cons_of_mem _ h⟩
    · rintro (h | ⟨gene, h⟩)
      · left
        split
        · exact h
        · exact List.mem_append_left _ h
      · rcases List.mem_cons.mp h with h | h
        · left
          have ha : a.2 = label := by rw [← h]
          split
          · rename_i hm
            rw [← ha]
            exact hm
          · rw [← ha]
            exact List.mem_append_right _ (List.mem_singleton.mpr rfl)
        · exact Or.inr ⟨gene, h⟩

theorem uniqueModules_fold_nodup (l : ModuleMap) (acc : List String) (h : acc.Nodup) :
    (l.foldl (fun modules e => if e.2 ∈ modules then modules else modules ++ [e.2]) acc).Nodup := by
  induction l generalizing acc with
  | nil => exact h
  | cons a l ih =>
    rw [List.foldl_cons]
    apply ih
    split
    · exact h
    · rename_i hm
      rw [List.nodup_append]
      refine ⟨h, List.nodup_singleton _, ?_⟩
      intro x hx hx'
      rw [List.mem_singleton.mp hx'] at hx
      exact hm hx

theorem mem_getUniqueModules (moduleMap : ModuleMap) (label : String) :
    label ∈ getUniqueModules moduleMap ↔ ∃ gene, (gene, label) ∈ moduleMap := by
  unfold getUniqueModules
  rw [uniqueModules_fold_mem]
  simp

theorem nodup_getUniqueModules (moduleMap : ModuleMap) : (getUniqueModules moduleMap).Nodup :=
  uniqueModules_fold_nodup moduleMap [] List.nodup_nil

theorem sequenceAll_map_proj {α β : Type} (l : List α) (f : α → Option β) (g : β → α)
    (h : ∀ x ∈ l, ∀ y, f x = some y → g y = x) (r : List β)
    (hr : sequenceAll (l.map f) = some r) : r.map g = l := by
  induction l generalizing r with
  | nil =>
    simp only [List.map_nil, sequenceAll, Option.some.injEq] at hr
    subst hr
    rfl
  | cons a l ih =>
    rw [List.map_cons] at hr
    cases ha : f a with
    | none => simp [sequenceAll, ha] at hr
    | some y =>
      cases hl : sequenceAll (l.map f) with
      | none => simp [sequenceAll, ha, hl] at hr
      | some t =>
        simp only [sequenceAll, ha, hl, Option.bind, Option.map, Option.some.injEq] at hr
        subst hr
        rw [List.map_cons, h a (List.mem_cons_self _ _) y ha,
          ih (fun x hx => h x (List.mem_cons_of_mem _ hx)) t hl]

section WriterLemmas

variable {K : Type} [LinearOrderedField K]

theorem writeModuleCorrelationResults_rows (corr : List (Fl K) → List (Fl K) → Fl K)
    (sqrt erf : K → K) (W : Nat) (moduleMap : ModuleMap)
    (condition1Data condition2Data : ExpressionMap K) :
    ∃ rows, writeModuleCorrelationResults corr sqrt erf W moduleMap condition1Data
        condition2Data = some rows ∧
      rows.map ModuleStats.Name = getUniqueModules moduleMap := by
  have hsome : (writeModuleCorrelationResults corr sqrt erf W moduleMap condition1Data
      condition2Data).isSome := by
    unfold writeModuleCorrelationResults
    apply sequenceAll_isSome
    intro a ha
    obtain ⟨m, _, rfl⟩ := List.mem_map.mp ha
    obtain ⟨t, p, h⟩ := analyzeModule_returns corr sqrt erf W m moduleMap condition1Data
      condition2Data
    rw [h]
    rfl
  obtain ⟨rows, hrows⟩ := Option.isSome_iff_exists.mp hsome
  refine ⟨rows, hrows, ?_⟩
  unfold writeModuleCorrelationResults at hrows
  apply sequenceAll_map_proj _ _ _ _ rows hrows
  intro m _ y hy
  obtain ⟨t, p, h⟩ := analyzeModule_returns corr sqrt erf W m moduleMap condition1Data
    condition2Data
  rw [h] at hy
  rw [← Option.some.inj hy]

theorem writeNullDistributionResults_rows (corr : List (Fl K) → List (Fl K) → Fl K)
    (sqrt erf : K → K) (W : Nat) (moduleMap : ModuleMap)
    (condition1Data condition2Data : ExpressionMap K)
    (draws1 draws2 : String → Nat → Nat → List Nat) (rows : List (NullDistributionStats K))
    (h : writeNullDistributionResults corr sqrt erf W moduleMap condition1Data condition2Data
      draws1 draws2 = some rows) :
    rows.map NullDistributionStats.Name = getUniqueModules moduleMap := by
  unfold writeNullDistributionResults at h
  apply sequenceAll_map_proj _ _ _ _ rows h
  intro m _ y hy
  unfold analyzeModuleNullDistribution at hy
  simp only at hy
  cases hc : createNullDistributions corr sqrt erf W (moduleGenesOf m moduleMap)
      condition1Data condition2Data (draws1 m) (draws2 m) with
  | none => rw [hc] at hy; cases hy
  | some r =>
    rw [hc] at hy
    simp only [Option.map, Option.some.injEq] at hy
    rw [← hy]

end WriterLemmas


/-! ## Lemmas on the position pairs evaluated -/

theorem getGeneIndices_bounds (idx : Nat) :
    (getGeneIndices idx).1 < (getGeneIndices idx).2 ∧
      (getGeneIndices idx).2 ≤ 2 * (getGeneIndices idx).1 + 1 := by
  obtain ⟨i, r, hr, rfl⟩ := exists_tri_decomp idx
  rw [getGeneIndices_tri i r hr]
  constructor
  · show i < r + i + 1
    omega
  · show r + i + 1 ≤ 2 * i + 1
    omega

theorem getGeneIndices_injective (a b : Nat) (h : getGeneIndices a = getGeneIndices b) :
    a = b := by
  obtain ⟨i, r, hr, rfl⟩ := exists_tri_decomp a
  obtain ⟨i', r', hr', rfl⟩ := exists_tri_decomp b
  rw [getGeneIndices_tri i r hr, getGeneIndices_tri i' r' hr'] at h
  have h1 : i = i' := congrArg Prod.fst h
  have h2 : r + i + 1 = r' + i' + 1 := congrArg Prod.snd h
  subst h1
  have : r = r' := by omega
  rw [this]

theorem getGeneIndices_of_pair (i j : Nat) (hij : i < j) (hj : j ≤ 2 * i + 1) :
    getGeneIndices (i * (i + 1) / 2 + (j - i - 1)) = (i, j) := by
  rw [getGeneIndices_tri i (j - i - 1) (by omega)]
  congr 1
  omega

theorem mem_evaluatedPairs (n W : Nat) (hW : 1 ≤ W) (i j : Nat) :
    (i, j) ∈ evaluatedPairs n W ↔ i < j ∧ j < n ∧ j ≤ 2 * i + 1 := by
  unfold evaluatedPairs
  rw [workIndices_eq _ _ hW, List.mem_filter, List.mem_map]
  constructor
  · rintro ⟨⟨idx, _, hidx⟩, hguard⟩
    have hb := getGeneIndices_bounds idx
    rw [hidx] at hb
    have hg : i < n ∧ j < n := by simpa using hguard
    exact ⟨hb.1, hg.2, hb.2⟩
  · rintro ⟨hij, hjn, hj⟩
    refine ⟨⟨i * (i + 1) / 2 + (j - i - 1), ?_, getGeneIndices_of_pair i j hij hj⟩, ?_⟩
    · rw [List.mem_range]
      by_contra hge
      have hle : n * (n - 1) / 2 ≤ i * (i + 1) / 2 + (j - i - 1) := by
        have := le_max_left (n * (n - 1) / 2) (W - 1)
        omega
      have := getGeneIndices_snd_ge n _ hle
      rw [getGeneIndices_of_pair i j hij hj] at this
      simp only at this
      omega
    · simp only [decide_eq_true_eq]
      omega

theorem nodup_evaluatedPairs (n W : Nat) (hW : 1 ≤ W) : (evaluatedPairs n W).Nodup := by
  unfold evaluatedPairs
  rw [workIndices_eq _ _ hW]
  apply List.Nodup.filter
  apply List.Nodup.map _ (List.nodup_range _)
  intro a b h
  exact getGeneIndices_injective a b h

theorem collect_some {β : Type} (f : Nat → Option (List β)) (g : Nat → List β) (l : List Nat)
    (h : ∀ i, f i = some (g i)) : collect f l = some (l.flatMap g) := by
  induction l with
  | nil => rfl
  | cons a l ih => simp [collect, h a, ih]

theorem flatMap_filter_of_nil {α β : Type} (l : List α) (p : α → Bool) (g : α → List β)
    (h : ∀ a, p a = false → g a = []) : (l.filter p).flatMap g = l.flatMap g := by
  induction l with
  | nil => rfl
  | cons a l ih =>
    cases hp : p a with
    | true => simp [List.filter, hp, ih]
    | false => simp [List.filter, hp, ih, h a hp]

theorem pairCorrelation_of_guard {K : Type} (corr : List (Fl K) → List (Fl K) → Fl K)
    (genes : List String) (expressionData : ExpressionMap K) (p : Nat × Nat)
    (h : decide (p.1 < genes.length ∧ p.2 < genes.length) = false) :
    pairCorrelation corr genes expressionData p = [] := by
  unfold pairCorrelation
  have hn : ¬ (p.1 < genes.length ∧ p.2 < genes.length) := by simpa using h
  by_cases h1 : p.1 < genes.length
  · have h2 : genes.length ≤ p.2 := by
      by_contra hc
      exact hn ⟨h1, by omega⟩
    rw [List.getElem?_eq_none h2]
    cases genes[p.1]? <;> rfl
  · rw [List.getElem?_eq_none (by omega)]

theorem getModuleCorrelations_eq_pairs {K : Type} (corr : List (Fl K) → List (Fl K) → Fl K)
    (W : Nat) (genes : List String) (expressionData : ExpressionMap K) :
    getModuleCorrelations corr W genes expressionData =
      some ((evaluatedPairs genes.length W).flatMap
        (pairCorrelation corr genes expressionData)) := by
  unfold getModuleCorrelations evaluatedPairs
  simp only
  rw [collect_some _ (fun idx => pairCorrelation corr genes expressionData (getGeneIndices idx))
    _ (fun idx => by rw [processIndex_eq]; rfl)]
  rw [flatMap_filter_of_nil _ _ _ (pairCorrelation_of_guard corr genes expressionData)]
  rw [List.flatMap_map]


/-! ## Lemmas on quantile normalisation -/

section QuantileLemmas

variable {K : Type} [LinearOrderedField K]

theorem floatEq_some_iff (v : K) (x : Fl K) : floatEq (some v) x = true ↔ x = some v := by
  cases x with
  | none => simp [floatEq]
  | some w =>
    simp only [floatEq, decide_eq_true_eq, Option.some.injEq]
    exact eq_comm

theorem rankMapFrom_of_not_mem (i : Nat) (s : List (Fl K)) (m : Fl K → Option Nat) (v : K)
    (h : some v ∉ s) : rankMapFrom i s m (some v) = m (some v) := by
  induction s generalizing i m with
  | nil => rfl
  | cons a s ih =>
    rw [rankMapFrom, ih (i + 1) _ (fun hm => h (List.mem_cons_of_mem _ hm))]
    have hne : floatEq (some v) a = false := by
      cases hf : floatEq (some v) a with
      | false => rfl
      | true =>
        have := (floatEq_some_iff v a).mp hf
        exact absurd (this ▸ List.mem_cons_self _ _) h
    simp [hne]

theorem rankMapFrom_of_mem (i : Nat) (s : List (Fl K)) (m : Fl K → Option Nat) (v : K)
    (h : some v ∈ s) :
    ∃ r, rankMapFrom i s m (some v) = some r ∧ i ≤ r ∧ s[r - i]? = some (some v) := by
  induction s generalizing i m with
  | nil => cases h
  | cons a s ih =>
    rw [rankMapFrom]
    by_cases hs : some v ∈ s
    · obtain ⟨r, hr, hle, hget⟩ := ih (i + 1)
        (fun k => if floatEq k a then some i else m k) hs
      refine ⟨r, hr, by omega, ?_⟩
      have : r - i = (r - (i + 1)) + 1 := by omega
      rw [this, List.getElem?_cons_succ]
      exact hget
    · have ha : a = some v := by
        rcases List.mem_cons.mp h with h | h
        · exact h.symm
        · exact absurd h hs
      rw [rankMapFrom_of_not_mem (i + 1) s _ v hs]
      have hf : floatEq (some v) a = true := (floatEq_some_iff v a).mpr ha
      refine ⟨i, by simp [hf], le_refl i, ?_⟩
      simp [ha]

theorem matCol_eq (data : Dense K) (cols j : Nat) (hwf : ∀ row ∈ data, row.length = cols)
    (hj : j < cols) :
    matCol j data = some (data.map fun row => row.getD j (some 0)) := by
  unfold matCol
  have : (data.map fun row => row[j]?) =
      (data.map fun row => row.getD j (some 0)).map some := by
    rw [List.map_map]
    apply List.map_congr_left
    intro row hrow
    have hlt : j < row.length := by rw [hwf row hrow]; exact hj
    simp [List.getD_eq_getElem?_getD, List.getElem?_eq_getElem hlt]
  rw [this, sequenceAll_map_some]

theorem matAt_eq (data : Dense K) (cols i j : Nat) (hwf : ∀ row ∈ data, row.length = cols)
    (hi : i < data.length) (hj : j < cols) :
    matAt data i j = some ((data.getD i []).getD j (some 0)) := by
  unfold matAt
  have hrow : (data[i]).length = cols := hwf _ (List.getElem_mem hi)
  have hlt : j < (data[i]).length := by rw [hrow]; exact hj
  simp [List.getElem?_eq_getElem hi, List.getD_eq_getElem?_getD, List.getElem?_eq_getElem hlt]

theorem normalizeColumn_eq (data : Dense K) (cols j : Nat)
    (hwf : ∀ row ∈ data, row.length = cols)
    (hnan : ∀ row ∈ data, ∀ v ∈ row, v ≠ none) (hj : j < cols) :
    normalizeColumn data data.length j = some (data.map fun row => row.getD j (some 0)) := by
  unfold normalizeColumn
  rw [matCol_eq data cols j hwf hj]
  simp only [Option.some_bind]
  have hstep : ((List.range data.length).map fun i =>
      (matAt data i j).bind fun val =>
        (sortFloat64s (data.map fun row => row.getD j (some 0)))[
          ((rankMapFrom 0 (sortFloat64s (data.map fun row => row.getD j (some 0)))
            (fun _ => none) val).getD 0)]?) =
      ((List.range data.length).map fun i =>
        (data.map fun row => row.getD j (some 0)).getD i (some 0)).map some := by
    rw [List.map_map]
    apply List.map_congr_left
    intro i hi
    have hi' : i < data.length := List.mem_range.mp hi
    rw [matAt_eq data cols i j hwf hi' hj]
    have hrowmem : data[i] ∈ data := List.getElem_mem hi'
    have hlt : j < (data[i]).length := by rw [hwf _ hrowmem]; exact hj
    have hval : (data.getD i []).getD j (some 0) = (data[i])[j] := by
      simp [List.getD_eq_getElem?_getD, List.getElem?_eq_getElem hi',
        List.getElem?_eq_getElem hlt]
    have hcolval : (data.map fun row => row.getD j (some 0)).getD i (some 0) = (data[i])[j] := by
      simp [List.getD_eq_getElem?_getD, List.getElem?_eq_getElem hi',
        List.getElem?_eq_getElem hlt]
    have hmemrow : (data[i])[j] ∈ data[i] := List.getElem_mem hlt
    obtain ⟨v, hv⟩ : ∃ v, (data[i])[j] = some v := by
      cases hx : (data[i])[j] with
      | none => exact absurd hx (hnan _ hrowmem _ hmemrow)
      | some v => exact ⟨v, rfl⟩
    have hmemcol : some v ∈ (data.map fun row => row.getD j (some 0)) := by
      rw [← hv, ← hcolval]
      rw [List.getD_eq_getElem?_getD, List.getElem?_eq_getElem (by simpa using hi')]
      exact List.getElem_mem _
    have hmemsorted : some v ∈ sortFloat64s (data.map fun row => row.getD j (some 0)) := by
      unfold sortFloat64s
      exact (List.mem_insertionSort _).mpr hmemcol
    obtain ⟨r, hr, _, hget⟩ := rankMapFrom_of_mem 0
      (sortFloat64s (data.map fun row => row.getD j (some 0))) (fun _ => none) v hmemsorted
    simp only [Option.bind, Function.comp, hval, hcolval, hv, hr, Option.getD_some]
    rw [Nat.sub_zero] at hget
    exact hget
  rw [hstep, sequenceAll_map_some]
  congr 1
  rw [range_map_getD _ _ _ (by simp), List.take_of_length_le (by simp)]

theorem normalizeQuantiles_identity (data : Dense K) (cols : Nat)
    (hwf : ∀ row ∈ data, row.length = cols)
    (hrows : 0 < data.length) (hcols : 0 < cols)
    (hnan : ∀ row ∈ data, ∀ v ∈ row, v ≠ none) :
    NormalizeQuantiles data = some data := by
  have hdims : dims data = (data.length, cols) := by
    unfold dims
    cases data with
    | nil => simp at hrows
    | cons row rest =>
      simp [hwf row (List.mem_cons_self _ _)]
  unfold NormalizeQuantiles
  simp only [hdims]
  rw [if_neg (by omega)]
  have hcolumns : ((List.range cols).map fun j => normalizeColumn data data.length j) =
      ((List.range cols).map fun j => data.map fun row => row.getD j (some 0)).map some := by
    rw [List.map_map]
    apply List.map_congr_left
    intro j hj
    exact normalizeColumn_eq data cols j hwf hnan (List.mem_range.mp hj)
  rw [hcolumns, sequenceAll_map_some]
  simp only [Option.map, Option.some.injEq]
  have hrow : ∀ i ∈ List.range data.length,
      (((List.range cols).map fun j => data.map fun row => row.getD j (some 0)).map
        fun c => c.getD i (some 0)) = data.getD i [] := by
    intro i hi
    have hi' : i < data.length := List.mem_range.mp hi
    rw [List.map_map]
    have hlen : (data.getD i []).length = cols := by
      rw [List.getD_eq_getElem?_getD, List.getElem?_eq_getElem hi']
      exact hwf _ (List.getElem_mem hi')
    have : ((fun c : List (Fl K) => c.getD i (some 0)) ∘
        fun j => data.map fun row => row.getD j (some 0)) =
        fun j => (data.getD i []).getD j (some 0) := by
      funext j
      simp [List.getD_eq_getElem?_getD, List.getElem?_eq_getElem hi']
    rw [this, range_map_getD _ _ _ (by omega), List.take_of_length_le (by omega)]
  rw [List.map_congr_left hrow, range_map_getD _ _ _ (le_refl _), List.take_length]

end QuantileLemmas


/-! ## Further lemmas on the writers, the pairs and the normalisation example -/

theorem moduleGenesOf_length_le (label : String) (moduleMap : ModuleMap) :
    (moduleGenesOf label moduleMap).length ≤ moduleMap.length := by
  unfold moduleGenesOf
  rw [List.length_map]
  exact List.length_filter_le _ _

section WriterReturns

variable {K : Type} [LinearOrderedField K]

theorem writeNullDistributionResults_isSome (corr : List (Fl K) → List (Fl K) → Fl K)
    (sqrt erf : K → K) (W : Nat) (moduleMap : ModuleMap)
    (condition1Data condition2Data : ExpressionMap K)
    (draws1 draws2 : String → Nat → Nat → List Nat)
    (hs1 : ∀ label, (moduleGenesOf label moduleMap).length ≤ (geneNames condition1Data).length)
    (hs2 : ∀ label, (moduleGenesOf label moduleMap).length ≤ (geneNames condition2Data).length)
    (hd1 : ∀ label w i,
      (draws1 label w i).Perm (List.range (geneNames condition1Data).length))
    (hd2 : ∀ label w i,
      (draws2 label w i).Perm (List.range (geneNames condition2Data).length)) :
    ∃ rows, writeNullDistributionResults corr sqrt erf W moduleMap condition1Data
        condition2Data draws1 draws2 = some rows ∧
      rows.map NullDistributionStats.Name = getUniqueModules moduleMap := by
  have hsome : (writeNullDistributionResults corr sqrt erf W moduleMap condition1Data
      condition2Data draws1 draws2).isSome := by
    unfold writeNullDistributionResults
    apply sequenceAll_isSome
    intro a ha
    obtain ⟨m, _, rfl⟩ := List.mem_map.mp ha
    obtain ⟨r, hr⟩ := Option.isSome_iff_exists.mp
      (createNullDistributions_isSome corr sqrt erf W (moduleGenesOf m moduleMap)
        condition1Data condition2Data (draws1 m) (draws2 m) (hs1 m) (hs2 m) (hd1 m) (hd2 m))
    simp [analyzeModuleNullDistribution, hr]
  obtain ⟨rows, hrows⟩ := Option.isSome_iff_exists.mp hsome
  exact ⟨rows, hrows, writeNullDistributionResults_rows corr sqrt erf W moduleMap
    condition1Data condition2Data draws1 draws2 rows hrows⟩

end WriterReturns

theorem pairCorrelation_of_present {K : Type} (corr : List (Fl K) → List (Fl K) → Fl K)
    (W : Nat) (hW : 1 ≤ W) (genes : List String) (expressionData : ExpressionMap K)
    (hpresent : ∀ g ∈ genes, (expressionData.lookup g).isSome)
    (p : Nat × Nat) (hp : p ∈ evaluatedPairs genes.length W) :
    ∃ g1 g2 e1 e2, genes[p.1]? = some g1 ∧ genes[p.2]? = some g2 ∧
      expressionData.lookup g1 = some e1 ∧ expressionData.lookup g2 = some e2 ∧
      pairCorrelation corr genes expressionData p =
        if (corr (e1.take (minSamples expressionData).toNat)
            (e2.take (minSamples expressionData).toNat)).isNone then []
        else [corr (e1.take (minSamples expressionData).toNat)
            (e2.take (minSamples expressionData).toNat)] := by
  obtain ⟨i, j⟩ := p
  obtain ⟨hij, hj, _⟩ := (mem_evaluatedPairs genes.length W hW i j).mp hp
  have hi : i < genes.length := by omega
  obtain ⟨e1, he1⟩ := Option.isSome_iff_exists.mp (hpresent _ (List.getElem_mem hi))
  obtain ⟨e2, he2⟩ := Option.isSome_iff_exists.mp (hpresent _ (List.getElem_mem hj))
  refine ⟨genes[i], genes[j], e1, e2, List.getElem?_eq_getElem hi,
    List.getElem?_eq_getElem hj, he1, he2, ?_⟩
  unfold pairCorrelation
  simp only [List.getElem?_eq_getElem hi, List.getElem?_eq_getElem hj, he1, he2]

theorem eval_normalize_two : NormalizeQuantiles denseTwoByTwo = some denseTwoByTwo := by
  apply normalizeQuantiles_identity denseTwoByTwo 2
  · intro row h
    simp only [denseTwoByTwo, List.mem_cons, List.mem_singleton] at h
    rcases h with rfl | rfl | h
    · rfl
    · rfl
    · cases h
  · decide
  · decide
  · intro row h v hv
    simp only [denseTwoByTwo, List.mem_cons, List.mem_singleton] at h
    rcases h with rfl | rfl | h
    · simp only [List.mem_cons, List.mem_singleton] at hv
      rcases hv with rfl | rfl | hv
      · simp
      · simp
      · cases hv
    · simp only [List.mem_cons, List.mem_singleton] at hv
      rcases hv with rfl | rfl | hv
      · simp
      · simp
      · cases hv
    · cases h

theorem sorted_columns_differ :
    sortFloat64s ([some 1, some 2] : List (Fl ℚ)) ≠ sortFloat64s [some 10, some 20] := by
  intro h
  unfold sortFloat64s at h
  have h1 := List.perm_insertionSort (fun a b => floatLE a b = true)
    ([some 1, some 2] : List (Fl ℚ))
  have h2 := List.perm_insertionSort (fun a b => floatLE a b = true)
    ([some 10, some 20] : List (Fl ℚ))
  rw [h] at h1
  have hp : ([some 1, some 2] : List (Fl ℚ)).Perm [some 10, some 20] := h1.symm.trans h2
  have hm := hp.subset (List.mem_cons_self _ _)
  simp only [List.mem_cons, Option.some.injEq, List.mem_singleton] at hm
  norm_num at hm

theorem matCol_two :
    matCol 0 denseTwoByTwo = some [some 1, some 2] ∧
    matCol 1 denseTwoByTwo = some [some 10, some 20] :=
  ⟨rfl, rfl⟩

/-! ## Claims on NaN handling, small modules and module discovery -/

/-- C21 (defect of the code): `calculateTTest` and `calculateTStatistic` never
return a NaN, they return `(0, 1)` whenever the unguarded computation (the one
`compareWithNull` performs) yields a NaN statistic or p-value, in particular
whenever a sample contains a NaN; but `compareWithNull`, which lacks their
final NaN check, returns `(NaN, NaN)` for the samples `[NaN, 1]` and `[1, 2]`. -/
theorem nan_clamp_missing_in_compareWithNull {K : Type} [LinearOrderedField K]
    (sqrt erf : K → K) :
    (∀ x y : List (Fl K),
      (calculateTTest sqrt erf x y).1 ≠ none ∧ (calculateTTest sqrt erf x y).2 ≠ none) ∧
    (∀ x y : List (Fl K),
      (calculateTStatistic sqrt erf x y).1 ≠ none ∧
        (calculateTStatistic sqrt erf x y).2 ≠ none) ∧
    (∀ x y : List (Fl K),
      calculateTTest sqrt erf x y =
        if isNaN (compareWithNull sqrt erf x y).1 ∨ isNaN (compareWithNull sqrt erf x y).2
        then (some 0, some 1) else compareWithNull sqrt erf x y) ∧
    (∀ x y : List (Fl K), none ∈ x ∨ none ∈ y →
      calculateTTest sqrt erf x y = (some 0, some 1)) ∧
    calculateTTest sqrt erf [none, some 1] [some 1, some 2] = (some 0, some 1) ∧
    calculateTStatistic sqrt erf [none, some 1] [some 1, some 2] = (some 0, some 1) ∧
    compareWithNull sqrt erf [none, some 1] [some 1, some 2] = (none, none) := by
  refine ⟨fun x y => ttest_not_nan sqrt erf x y, fun x y => ?_,
    fun x y => ttest_eq_clamp sqrt erf x y, fun x y h => ttest_of_nan_mem sqrt erf x y h,
    calculateTTest_nan sqrt erf, tstat_nan sqrt erf, compareWithNull_nan sqrt erf⟩
  rw [tstat_eq_ttest_abs]
  exact ttest_not_nan sqrt erf _ _

/-- C22: for every module map, both expression maps, every worker count `W ≥ 1`
and every module label with fewer than 2 genes, the module yields no
correlations in either condition and `analyzeModule` returns the full row
whose Name is the label, whose Size is the number of genes mapped to the label
and whose TStatistic and PValue are the sentinel `0` and `1`. -/
theorem analyzeModule_small_module {K : Type} [LinearOrderedField K]
    (corr : List (Fl K) → List (Fl K) → Fl K) (sqrt erf : K → K) (W : Nat) (hW : 1 ≤ W)
    (moduleName : String) (moduleMap : ModuleMap)
    (condition1Data condition2Data : ExpressionMap K)
    (hlen : (moduleMap.filter fun e => e.2 == moduleName).length < 2) :
    getModuleCorrelations corr W (moduleGenesOf moduleName moduleMap) condition1Data
      = some [] ∧
    getModuleCorrelations corr W (moduleGenesOf moduleName moduleMap) condition2Data
      = some [] ∧
    analyzeModule corr sqrt erf W moduleName moduleMap condition1Data condition2Data =
      some (ModuleStats.mk moduleName (some 0) (some 1)
        (moduleMap.filter fun e => e.2 == moduleName).length) := by
  have hg : (moduleGenesOf moduleName moduleMap).length < 2 := by
    simpa [moduleGenesOf] using hlen
  exact ⟨getModuleCorrelations_of_short corr W hW _ hg condition1Data,
    getModuleCorrelations_of_short corr W hW _ hg condition2Data,
    analyzeModule_of_short corr sqrt erf W hW moduleName moduleMap condition1Data
      condition2Data hlen⟩

/-- Witness of C22: the module `M2` of the two-module map has the single gene
`g3`; its row is `(M2, 0, 1, 1)`. -/
theorem analyzeModule_small_module_witness :
    getModuleCorrelations (correlation sqrtQ) 1 (moduleGenesOf "M2" moduleMapTwo) exprSpec
      = some [] ∧
    getModuleCorrelations (correlation sqrtQ) 1 (moduleGenesOf "M2" moduleMapTwo) exprSpec
      = some [] ∧
    analyzeModule (correlation sqrtQ) sqrtQ erfQ 1 "M2" moduleMapTwo exprSpec exprSpec =
      some (ModuleStats.mk "M2" (some 0) (some 1)
        (moduleMapTwo.filter fun e => e.2 == "M2").length) :=
  analyzeModule_small_module (correlation sqrtQ) sqrtQ erfQ 1 (by decide) "M2" moduleMapTwo
    exprSpec exprSpec (by decide)

/-- C23: `getUniqueModules moduleMap` contains a label if and only if some gene
of the module map maps to it, and contains no label twice;
`writeModuleCorrelationResults` returns one row per entry of that list, in its
order; `writeNullDistributionResults` does the same whenever it returns, and
it returns when no module is larger than the gene universe of either condition
and the random draws are permutations of the universes. -/
theorem unique_modules_one_row_each {K : Type} [LinearOrderedField K]
    (corr : List (Fl K) → List (Fl K) → Fl K) (sqrt erf : K → K) (W : Nat)
    (moduleMap : ModuleMap) (condition1Data condition2Data : ExpressionMap K)
    (draws1 draws2 : String → Nat → Nat → List Nat) :
    (∀ label, label ∈ getUniqueModules moduleMap ↔ ∃ gene, (gene, label) ∈ moduleMap) ∧
    (getUniqueModules moduleMap).Nodup ∧
    (∃ rows, writeModuleCorrelationResults corr sqrt erf W moduleMap condition1Data
        condition2Data = some rows ∧
      rows.map ModuleStats.Name = getUniqueModules moduleMap) ∧
    (∀ rows, writeNullDistributionResults corr sqrt erf W moduleMap condition1Data
        condition2Data draws1 draws2 = some rows →
      rows.map NullDistributionStats.Name = getUniqueModules moduleMap) ∧
    ((∀ label, (moduleGenesOf label moduleMap).length ≤ (geneNames condition1Data).length) →
      (∀ label, (moduleGenesOf label moduleMap).length ≤ (geneNames condition2Data).length) →
      (∀ label w i,
        (draws1 label w i).Perm (List.range (geneNames condition1Data).length)) →
      (∀ label w i,
        (draws2 label w i).Perm (List.range (geneNames condition2Data).length)) →
      ∃ rows, writeNullDistributionResults corr sqrt erf W moduleMap condition1Data
          condition2Data draws1 draws2 = some rows ∧
        rows.map NullDistributionStats.Name = getUniqueModules moduleMap) :=
  ⟨fun label => mem_getUniqueModules moduleMap label, nodup_getUniqueModules moduleMap,
    writeModuleCorrelationResults_rows corr sqrt erf W moduleMap condition1Data
      condition2Data,
    fun rows h => writeNullDistributionResults_rows corr sqrt erf W moduleMap condition1Data
      condition2Data draws1 draws2 rows h,
    fun hs1 hs2 hd1 hd2 => writeNullDistributionResults_isSome corr sqrt erf W moduleMap
      condition1Data condition2Data draws1 draws2 hs1 hs2 hd1 hd2⟩

/-- Witness of C23: the two-module map `g1, g2 ↦ M1`, `g3 ↦ M2` over the three
genes of the spec's example with the draw `2, 0, 1`: the null distribution
writer returns one row per label. -/
theorem unique_modules_one_row_each_witness :
    ∃ rows, writeNullDistributionResults (correlation sqrtQ) sqrtQ erfQ 1 moduleMapTwo
        exprSpec exprSpec (fun _ _ _ => [2, 0, 1]) (fun _ _ _ => [2, 0, 1]) = some rows ∧
      rows.map NullDistributionStats.Name = getUniqueModules moduleMapTwo :=
  (unique_modules_one_row_each (correlation sqrtQ) sqrtQ erfQ 1 moduleMapTwo exprSpec exprSpec
    (fun _ _ _ => [2, 0, 1]) (fun _ _ _ => [2, 0, 1])).2.2.2.2
    (fun label => le_trans (moduleGenesOf_length_le label moduleMapTwo) (by decide))
    (fun label => le_trans (moduleGenesOf_length_le label moduleMapTwo) (by decide))
    (fun _ _ _ => (by decide : [2, 0, 1].Perm (List.range (geneNames exprSpec).length)))
    (fun _ _ _ => (by decide : [2, 0, 1].Perm (List.range (geneNames exprSpec).length)))

/-! ## Claims on quantile normalisation -/

/-- C24 (defect of the code): `NormalizeQuantiles` returns the matrix with rows
`[1, 10]` and `[2, 20]` unchanged, so the two columns of the result, `[1, 2]`
and `[10, 20]`, do not have the same sorted sequence of values: the function
does not perform quantile normalization. -/
theorem NormalizeQuantiles_not_quantile_normalization :
    NormalizeQuantiles denseTwoByTwo = some denseTwoByTwo ∧
    matCol 0 denseTwoByTwo = some [some 1, some 2] ∧
    matCol 1 denseTwoByTwo = some [some 10, some 20] ∧
    sortFloat64s ([some 1, some 2] : List (Fl ℚ)) ≠ sortFloat64s [some 10, some 20] :=
  ⟨eval_normalize_two, matCol_two.1, matCol_two.2, sorted_columns_differ⟩

/-- C30: for every matrix with at least one row and one column (all rows of the
same length `cols`) and without NaN entries, `NormalizeQuantiles` returns the
input matrix itself; the reason is that the rank lookup of a value that occurs
in the sorted column is a position of the sorted column holding that value. -/
theorem NormalizeQuantiles_identity_on_clean_matrix {K : Type} [LinearOrderedField K]
    (data : Dense K) (cols : Nat)
    (hwf : ∀ row ∈ data, row.length = cols)
    (hrows : 0 < data.length) (hcols : 0 < cols)
    (hnan : ∀ row ∈ data, ∀ v ∈ row, v ≠ none) :
    NormalizeQuantiles data = some data ∧
    (∀ (sorted : List (Fl K)) (v : K), some v ∈ sorted →
      ∃ r, rankMapFrom 0 sorted (fun _ => none) (some v) = some r ∧
        sorted[r]? = some (some v)) := by
  refine ⟨normalizeQuantiles_identity data cols hwf hrows hcols hnan, fun sorted v hv => ?_⟩
  obtain ⟨r, hr, _, hget⟩ := rankMapFrom_of_mem 0 sorted (fun _ => none) v hv
  exact ⟨r, hr, by simpa using hget⟩

/-- Witness of C30: the matrix with the single row `[3, 1, 2]`. -/
theorem NormalizeQuantiles_identity_on_clean_matrix_witness :
    NormalizeQuantiles ([[some 3, some 1, some 2]] : Dense ℚ) = some [[some 3, some 1, some 2]] ∧
    (∀ (sorted : List (Fl ℚ)) (v : ℚ), some v ∈ sorted →
      ∃ r, rankMapFrom 0 sorted (fun _ => none) (some v) = some r ∧
        sorted[r]? = some (some v)) :=
  NormalizeQuantiles_identity_on_clean_matrix ([[some 3, some 1, some 2]] : Dense ℚ) 3
    (by simp) (by simp) (by decide) (by simp)

/-! ## Claims on the evaluated pairs -/

/-- C25: for every gene list of `n` genes and every worker count `W ≥ 1`, the
position pairs that pass the bounds guard of `getModuleCorrelations` are
exactly the pairs `(i, j)` with `i < j < n` and `j ≤ 2 * i + 1`, none of them
twice, and the function returns the values these pairs yield; when all genes
are in the expression map each such pair yields the correlation of its two
genes cut to `minSamples` (unless it is NaN); `getGeneIndices` is injective
and always returns `i < j ≤ 2 * i + 1`. -/
theorem evaluated_pairs_exactly_once {K : Type}
    (corr : List (Fl K) → List (Fl K) → Fl K) (W : Nat) (hW : 1 ≤ W) (genes : List String)
    (expressionData : ExpressionMap K)
    (hpresent : ∀ g ∈ genes, (expressionData.lookup g).isSome) :
    (∀ i j, (i, j) ∈ evaluatedPairs genes.length W ↔
      i < j ∧ j < genes.length ∧ j ≤ 2 * i + 1) ∧
    (evaluatedPairs genes.length W).Nodup ∧
    getModuleCorrelations corr W genes expressionData =
      some ((evaluatedPairs genes.length W).flatMap
        (pairCorrelation corr genes expressionData)) ∧
    (∀ p ∈ evaluatedPairs genes.length W,
      ∃ g1 g2 e1 e2, genes[p.1]? = some g1 ∧ genes[p.2]? = some g2 ∧
        expressionData.lookup g1 = some e1 ∧ expressionData.lookup g2 = some e2 ∧
        pairCorrelation corr genes expressionData p =
          if (corr (e1.take (minSamples expressionData).toNat)
              (e2.take (minSamples expressionData).toNat)).isNone then []
          else [corr (e1.take (minSamples expressionData).toNat)
              (e2.take (minSamples expressionData).toNat)]) ∧
    (∀ a b, getGeneIndices a = getGeneIndices b → a = b) ∧
    (∀ idx, (getGeneIndices idx).1 < (getGeneIndices idx).2 ∧
      (getGeneIndices idx).2 ≤ 2 * (getGeneIndices idx).1 + 1) :=
  ⟨fun i j => mem_evaluatedPairs genes.length W hW i j,
    nodup_evaluatedPairs genes.length W hW,
    getModuleCorrelations_eq_pairs corr W genes expressionData,
    fun p hp => pairCorrelation_of_present corr W hW genes expressionData hpresent p hp,
    fun a b h => getGeneIndices_injective a b h,
    fun idx => getGeneIndices_bounds idx⟩

/-- Witness of C25: the three genes of the spec's example with one worker. -/
theorem evaluated_pairs_exactly_once_witness :
    (∀ i j, (i, j) ∈ evaluatedPairs ["g1", "g2", "g3"].length 1 ↔
      i < j ∧ j < ["g1", "g2", "g3"].length ∧ j ≤ 2 * i + 1) ∧
    (evaluatedPairs ["g1", "g2", "g3"].length 1).Nodup ∧
    getModuleCorrelations (correlation sqrtQ) 1 ["g1", "g2", "g3"] exprSpec =
      some ((evaluatedPairs ["g1", "g2", "g3"].length 1).flatMap
        (pairCorrelation (correlation sqrtQ) ["g1", "g2", "g3"] exprSpec)) ∧
    (∀ p ∈ evaluatedPairs ["g1", "g2", "g3"].length 1,
      ∃ g1 g2 e1 e2, ["g1", "g2", "g3"][p.1]? = some g1 ∧ ["g1", "g2", "g3"][p.2]? = some g2 ∧
        exprSpec.lookup g1 = some e1 ∧ exprSpec.lookup g2 = some e2 ∧
        pairCorrelation (correlation sqrtQ) ["g1", "g2", "g3"] exprSpec p =
          if (correlation sqrtQ (e1.take (minSamples exprSpec).toNat)
              (e2.take (minSamples exprSpec).toNat)).isNone then []
          else [correlation sqrtQ (e1.take (minSamples exprSpec).toNat)
              (e2.take (minSamples exprSpec).toNat)]) ∧
    (∀ a b, getGeneIndices a = getGeneIndices b → a = b) ∧
    (∀ idx, (getGeneIndices idx).1 < (getGeneIndices idx).2 ∧
      (getGeneIndices idx).2 ≤ 2 * (getGeneIndices idx).1 + 1) :=
  evaluated_pairs_exactly_once (correlation sqrtQ) 1 (by decide) ["g1", "g2", "g3"] exprSpec
    (by decide)

/-- C26: for every `n` and every index `idx ≥ n * (n - 1) / 2`, `getGeneIndices idx`
returns a pair whose second position is at least `n`, so for every gene list
of `n` genes the worker loop body skips the index at the bounds guard: it
fails at no list access and sends no value. -/
theorem indices_beyond_total_skipped {K : Type} (n idx : Nat) (h : n * (n - 1) / 2 ≤ idx) :
    n ≤ (getGeneIndices idx).2 ∧
    (∀ (corr : List (Fl K) → List (Fl K) → Fl K) (genes : List String)
      (expressionData : ExpressionMap K) (minS : Int), genes.length = n →
      processIndex corr genes expressionData minS idx = some []) := by
  refine ⟨getGeneIndices_snd_ge n idx h, fun corr genes expressionData minS hn => ?_⟩
  subst hn
  exact processIndex_skip corr genes expressionData minS idx h

/-- Witness of C26: three genes have three pairs; index `3` is skipped. -/
theorem indices_beyond_total_skipped_witness :
    3 ≤ (getGeneIndices 3).2 ∧
    (∀ (corr : List (Fl ℚ) → List (Fl ℚ) → Fl ℚ) (genes : List String)
      (expressionData : ExpressionMap ℚ) (minS : Int), genes.length = 3 →
      processIndex corr genes expressionData minS 3 = some []) :=
  indices_beyond_total_skipped 3 3 (by decide)

/-! ## Claims on the symmetries of the statistic -/

/-- C27: for every sample `x` of any length, `calculateTTest x x = (0, 1)`, for
an error function with `erf 0 = 0`. -/
theorem calculateTTest_self_comparison {K : Type} [LinearOrderedField K] (sqrt erf : K → K)
    (herf : erf 0 = 0) (x : List (Fl K)) :
    calculateTTest sqrt erf x x = (some 0, some 1) :=
  ttest_self sqrt erf herf x

/-- Witness of C27: the sample `[1, 2, 3]` with the rational stand-ins for the
square root and the error function. -/
theorem calculateTTest_self_comparison_witness :
    calculateTTest sqrtQ erfQ [some 1, some 2, some 3] [some 1, some 2, some 3] =
      (some 0, some 1) :=
  calculateTTest_self_comparison sqrtQ erfQ erfQ_zero [some 1, some 2, some 3]

/-- C28: for all samples `x` and `y`, `calculateTTest x y` is a pair of numbers
`(t, p)` and `calculateTTest y x = (-t, p)`. -/
theorem calculateTTest_swap_negates {K : Type} [LinearOrderedField K] (sqrt erf : K → K)
    (x y : List (Fl K)) :
    ∃ t p, calculateTTest sqrt erf x y = (some t, some p) ∧
      calculateTTest sqrt erf y x = (some (-t), some p) := by
  have hswap := ttest_swap sqrt erf x y
  obtain ⟨h1, h2⟩ := ttest_not_nan sqrt erf x y
  cases ht : (calculateTTest sqrt erf x y).1 with
  | none => exact absurd ht h1
  | some t =>
    cases hp : (calculateTTest sqrt erf x y).2 with
    | none => exact absurd hp h2
    | some p =>
      refine ⟨t, p, Prod.ext ht hp, ?_⟩
      rw [hswap, ht, hp]
      rfl

/-- C29: for all samples `x`, `y`, every reordering `x'` of `x` and every
reordering `y'` of `y`, `calculateTTest x' y' = calculateTTest x y`: the
statistic and the p-value depend only on the multisets of values. -/
theorem calculateTTest_order_independent {K : Type} [LinearOrderedField K] (sqrt erf : K → K)
    (x x' y y' : List (Fl K)) (hx : x.Perm x') (hy : y.Perm y') :
    calculateTTest sqrt erf x' y' = calculateTTest sqrt erf x y :=
  ttest_perm sqrt erf x x' y y' hx hy

/-- Witness of C29: `[3, 2, 1]` and `[6, 5, 4]` are the reversals of `[1, 2, 3]`
and `[4, 5, 6]`. -/
theorem calculateTTest_order_independent_witness :
    calculateTTest sqrtQ erfQ [some 3, some 2, some 1] [some 6, some 5, some 4] =
      calculateTTest sqrtQ erfQ [some 1, some 2, some 3] [some 4, some 5, some 6] :=
  calculateTTest_order_independent sqrtQ erfQ [some 1, some 2, some 3] [some 3, some 2, some 1]
    [some 4, some 5, some 6] [some 6, some 5, some 4]
    (List.reverse_perm ([some 3, some 2, some 1] : List (Fl ℚ)))
    (List.reverse_perm ([some 6, some 5, some 4] : List (Fl ℚ)))

end DiffCoEx
